import Mathlib

/-!
Verification development for the django_api_forms validation core
(src/django_api_forms: forms.py, fields.py, exceptions.py).

The embedding models the Python values that flow through the library
(`PyVal`), Django's ValidationError payloads as they are actually used by
this code base (`Leaf`, `VError`), the Python exceptions that the code
raises and catches (`PyExc`), the field classes of fields.py as a deep
syntax (`FieldSpec`, mutually inductive with `FormSpec`), and the
orchestration of forms.py (`full_clean` via `fieldPhase` / `fieldsLoop` /
`add_error`, the lazy `errors` property, and `fill`).

Notes on fidelity:
* Machine dictionaries are modelled as association lists with Python
  dict semantics (insertion order, in-place update, deletion).
* Python exceptions are modelled with `Except` / explicit
  `state so far, optional exception` pairs, because `full_clean`
  mutates `self._errors` / `self.cleaned_data` in place and an escaping
  exception leaves the partially built state on the instance.
* `params` of Django ValidationError are not carried: no claim inspects
  them, and the code under verification only copies them around.
-/

/-- A Python value as it appears in a decoded request body or in
cleaned data.  `enumMember v` is the result of `EnumField.to_python`
(an enum member whose `_value_` is `v`); it never occurs in raw input. -/
inductive PyVal where
  | none
  | bool (b : Bool)
  | int (n : Int)
  | str (s : String)
  | list (xs : List PyVal)
  | tup (xs : List PyVal)
  | dict (xs : List (String × PyVal))
  | enumMember (v : PyVal)
deriving Repr

/-- Python truthiness (`bool(value)`): None, False, 0, empty string and
empty containers are falsy. -/
def pyTruthy : PyVal → Bool
  | .none => false
  | .bool b => b
  | .int n => n != 0
  | .str s => s ≠ ""
  | .list xs => ¬ xs.isEmpty
  | .tup xs => ¬ xs.isEmpty
  | .dict xs => ¬ xs.isEmpty
  | .enumMember _ => true

/-- Membership in Django's `Field.empty_values = [None, "", [], (), {}]`,
tested with Python `==` (no other PyVal shape compares equal to one of
the five members). -/
def isEmptyValue : PyVal → Bool
  | .none => true
  | .str s => s = ""
  | .list xs => xs.isEmpty
  | .tup xs => xs.isEmpty
  | .dict xs => xs.isEmpty
  | _ => false

/-- Python `==` on our value universe.  The cross-type cases that matter
are bool/int (True == 1, False == 0); sequences compare pointwise, dicts
compare key-wise, and a list never equals a tuple. -/
def pyEq : PyVal → PyVal → Bool
  | .none, .none => true
  | .bool a, .bool b => a = b
  | .bool a, .int n => (a ∧ n = 1) ∨ (¬ a ∧ n = 0)
  | .int n, .bool a => (a ∧ n = 1) ∨ (¬ a ∧ n = 0)
  | .int a, .int b => a = b
  | .str a, .str b => a = b
  | .list a, .list b => pyEqList a b
  | .tup a, .tup b => pyEqList a b
  | .dict a, .dict b => a.length = b.length ∧ pyEqPairs a b
  | .enumMember a, .enumMember b => pyEq a b
  | _, _ => false
where
  pyEqList : List PyVal → List PyVal → Bool
    | [], [] => true
    | x :: xs, y :: ys => pyEq x y && pyEqList xs ys
    | _, _ => false
  pyEqPairs : List (String × PyVal) → List (String × PyVal) → Bool
    | [], _ => true
    | (k, v) :: rest, b =>
      (match b.find? (fun kv => kv.1 = k) with
       | some kv => pyEq v kv.2
       | none => false) && pyEqPairs rest b

/-- Python `str(value)`, exact on the scalar shapes the claims exercise;
container shapes get a coarse rendering (Python would use `repr`, which
no claim inspects). -/
def pyStr : PyVal → String
  | .none => "None"
  | .bool b => if b then "True" else "False"
  | .int n => toString n
  | .str s => s
  | .list _ => "<list>"
  | .tup _ => "<tuple>"
  | .dict _ => "<dict>"
  | .enumMember _ => "<enum member>"

/-- Python `type(value)` rendered into a message (Python would quote the
class name; the quotes are immaterial to every claim). -/
def pyTypeName : PyVal → String
  | .none => "<class NoneType>"
  | .bool _ => "<class bool>"
  | .int _ => "<class int>"
  | .str _ => "<class str>"
  | .list _ => "<class list>"
  | .tup _ => "<class tuple>"
  | .dict _ => "<class dict>"
  | .enumMember _ => "<enum member>"

/-- One step of an error path (`DetailValidationError._path`): a field
name / dict key, or a list index. -/
inductive Seg where
  | str (s : String)
  | idx (n : Nat)
deriving DecidableEq, Repr

/-- A single Django ValidationError carrying a message and a code, plus
the `_path` attribute when it is a `DetailValidationError`
(exceptions.py:29-51); plain ValidationErrors have `path = none`. -/
structure Leaf where
  message : String
  code : Option String
  path : Option (List Seg)
deriving DecidableEq, Repr

/-- A Django ValidationError payload as constructed by this code base:
a single error, a list of errors (`error_list`), or a dict of errors
(`error_dict`, keyed by field name / dict key). -/
inductive VError where
  | leaf (l : Leaf)
  | batch (ls : List Leaf)
  | edict (es : List (String × List Leaf))
deriving DecidableEq, Repr

/-- `error.error_list` (Django): a single error is its own singleton
list; lists are flat already; a dict in list position is flattened to
the concatenation of its values. -/
def errorList : VError → List Leaf
  | .leaf l => [l]
  | .batch ls => ls
  | .edict es => es.flatMap (·.2)

/-- `hasattr(error, "error_dict")`. -/
def hasErrorDict : VError → Bool
  | .edict _ => true
  | _ => false

/-- The Python exceptions raised and caught by forms.py / fields.py:
ValidationError, RequestValidationError (exceptions.py:16-26, carrying a
user-supplied list of errors), the builtin AttributeError / TypeError /
ValueError that full_clean converts to a generic error, and
ApiFormException (a programmer error that is never collected). -/
inductive PyExc where
  | validation (e : VError)
  | requestValidation (errs : List Leaf)
  | attributeError
  | typeError
  | valueError
  | apiFormException (msg : String)
deriving DecidableEq, Repr

/-! Association lists with Python dict semantics. -/

/-- `d.get(k)` / `d[k]`: first (only) binding of `k`. -/
def alGet (l : List (String × α)) (k : String) : Option α :=
  (l.find? (fun kv => kv.1 = k)).map (·.2)

/-- `k in d`. -/
def alHas (l : List (String × α)) (k : String) : Bool :=
  (alGet l k).isSome

/-- `d[k] = v`: update in place (keeping insertion order) or append. -/
def alSet : List (String × α) → String → α → List (String × α)
  | [], k, v => [(k, v)]
  | (k', v') :: rest, k, v =>
    if k' = k then (k, v) :: rest else (k', v') :: alSet rest k v

/-- `del d[k]`. -/
def alDel (l : List (String × α)) (k : String) : List (String × α) :=
  l.filter (fun kv => kv.1 ≠ k)

/-- Keys of a dict, in insertion order. -/
def alKeys (l : List (String × α)) : List String := l.map (·.1)

/-! Scalar field primitives translated from fields.py and from the
Django fields the repository composes with. -/

/-- `BooleanField.to_python` truthy literals (fields.py:22), membership
by Python `==` (so `1` matches via `1 == True`). -/
def boolTrueLit : PyVal → Bool
  | .bool true => true
  | .str "True" => true
  | .str "true" => true
  | .str "1" => true
  | .int n => n = 1
  | _ => false

/-- `BooleanField.to_python` falsy literals (fields.py:24). -/
def boolFalseLit : PyVal → Bool
  | .bool false => true
  | .str "False" => true
  | .str "false" => true
  | .str "0" => true
  | .int n => n = 0
  | _ => false

/-- Django's `"This field is required."` / code `required` error. -/
def requiredLeaf : Leaf := ⟨"This field is required.", some "required", none⟩

/-- forms.py:144 `ValidationError(_("Invalid value"))` — note: no code. -/
def invalidValueLeaf : Leaf := ⟨"Invalid value", none, none⟩

/-- Django IntegerField `invalid` error. -/
def intInvalidLeaf : Leaf := ⟨"Enter a whole number.", some "invalid", none⟩

/-- FieldList / FormFieldList `not_list` error (fields.py:45,118). -/
def notListLeaf : Leaf :=
  ⟨"This field needs to be a list of objects!", some "not_list", none⟩

/-- FieldList / FormFieldList `min_length` error (message template kept
uninterpolated, as stored on the ValidationError). -/
def minLengthLeaf : Leaf :=
  ⟨"Ensure this list has at least %(min)d values (it has %(length)d).",
   some "min_length", none⟩

/-- FieldList / FormFieldList `max_length` error. -/
def maxLengthLeaf : Leaf :=
  ⟨"Ensure this list has at most %(max)d values (it has %(length)d).",
   some "max_length", none⟩

/-- DictionaryField `not_dict` error (fields.py:199-200): the message is
formatted with the received type and the error is raised without a code. -/
def dictNotDictLeaf (v : PyVal) : Leaf :=
  ⟨"Invalid value passed to DictionaryField (got " ++ pyTypeName v ++
   ", expected dict)", none, none⟩

/-- EnumField `invalid` error (fields.py:175), message formatted with
the offending value and the enum type. -/
def enumInvalidLeaf (name : String) (v : PyVal) : Leaf :=
  ⟨"Invalid enum value \"" ++ pyStr v ++ "\" passed to <enum " ++ name ++ ">",
   some "invalid", none⟩

/-- Django ProhibitNullCharactersValidator error (CharField default
validator). -/
def nullCharLeaf : Leaf :=
  ⟨"Null characters are not allowed.", some "null_characters_not_allowed", none⟩

/-- Python `str.strip()` (and Django CharField `strip=True`): drop
whitespace from both ends.  Implemented over the character list so that
it evaluates inside the kernel. -/
def pyStrip (s : String) : String :=
  String.mk ((((s.data.dropWhile Char.isWhitespace).reverse.dropWhile
    Char.isWhitespace).reverse))

/-- Digits of a decimal literal to a Nat. -/
def digitsToNat (cs : List Char) : Nat :=
  cs.foldl (fun acc c => 10 * acc + (c.toNat - 48)) 0

/-- Python `int(s)`: optional surrounding whitespace, optional sign,
at least one digit (digit-group underscores are not modelled; no claim
feeds such a literal). -/
def intFromStr (s : String) : Option Int :=
  let t := (pyStrip s).data
  let neg := t.take 1 = [Char.ofNat 45]
  let core := if neg ∨ t.take 1 = [Char.ofNat 43] then t.drop 1 else t
  if core.length > 0 ∧ core.all Char.isDigit then
    some (if neg then -(digitsToNat core : Int) else (digitsToNat core : Int))
  else
    Option.none

/-- Django IntegerField's `re_decimal = re.compile(r"\.0*\s*$")`
substitution: strip a trailing dot-zeros(-whitespace) suffix. -/
def stripDecimalSuffix (s : String) : String :=
  let noWs := s.data.reverse.dropWhile Char.isWhitespace
  let noZeros := noWs.dropWhile (fun c => c = Char.ofNat 48)
  if noZeros.take 1 = [Char.ofNat 46] then String.mk (noZeros.drop 1).reverse
  else s

/-- `DetailValidationError(error, path)` (exceptions.py:30-34): copies
`error.message` / `error.code` and installs the path.  Reading
`.message` off a list- or dict-shaped ValidationError raises
AttributeError in Python, which this returns as an exception. -/
def detailValidationError (e : VError) (path : List Seg) : Except PyExc Leaf :=
  match e with
  | .leaf l => .ok ⟨l.message, l.code, some path⟩
  | _ => .error .attributeError

/-! The declared-field syntax.  A `FieldSpec` is a field instance as it
sits in `base_fields`; a `FormSpec` is a Form class: its declared
fields, its `clean_<name>` hooks, and its form-wide `clean` hook.  Hooks
are user code; they are modelled by the small vocabulary the library's
exception handling distinguishes. -/

/-- A `clean_<name>` hook on a form: it returns a replacement value for
`cleaned_data[name]`, or raises ValidationError / RequestValidationError
(both caught by full_clean, forms.py:141-142). -/
inductive HookSpec where
  | returnValue (v : PyVal)
  | raiseValidation (message : String) (code : Option String)
  | raiseRequestValidation (errs : List Leaf)
deriving Repr

/-- The form-wide `clean` hook: the default returns `self.cleaned_data`
unchanged (forms.py:153-160); a user hook may return None (full_clean
then keeps the per-field cleaned data) or raise a ValidationError. -/
inductive CleanHookSpec where
  | default
  | returnNone
  | raiseValidation (message : String) (code : Option String)
deriving Repr

mutual
/-- A field instance of fields.py (plus the Django scalars the test app
composes with: CharField, IntegerField).  Each carries its `required`
flag.  `enumF` carries the enum's name (for the message) and its member
values; `dictF` models `DictionaryField(value_field=...)` with
`key_field=None` (the only configuration the claims exercise).
`fieldList` / `formFieldList` carry `min_length` / `max_length`. -/
inductive FieldSpec where
  | charF (required : Bool)
  | intF (required : Bool)
  | boolF (required : Bool)
  | anyF (required : Bool)
  | enumF (name : String) (allowed : List PyVal) (required : Bool)
  | fieldList (inner : FieldSpec) (required : Bool)
      (minLength maxLength : Option Nat)
  | dictF (valueField : FieldSpec) (required : Bool)
  | formF (sub : FormSpec) (required : Bool)
  | formFieldList (sub : FormSpec) (required : Bool)
      (minLength maxLength : Option Nat)

/-- A Form class: `base_fields` in declaration order, the `clean_<name>`
hooks present on the class, and the form-wide `clean` hook. -/
inductive FormSpec where
  | mk (fields : List (String × FieldSpec))
      (hooks : List (String × HookSpec))
      (cleanHook : CleanHookSpec)
end

/-- Declared fields of a form. -/
def FormSpec.fieldsOf : FormSpec → List (String × FieldSpec)
  | .mk fs _ _ => fs

/-- `clean_<name>` hooks of a form. -/
def FormSpec.hooksOf : FormSpec → List (String × HookSpec)
  | .mk _ hs _ => hs

/-- Form-wide `clean` hook of a form. -/
def FormSpec.cleanHookOf : FormSpec → CleanHookSpec
  | .mk _ _ ch => ch

/-- The `required` flag of a field. -/
def FieldSpec.requiredOf : FieldSpec → Bool
  | .charF r => r
  | .intF r => r
  | .boolF r => r
  | .anyF r => r
  | .enumF _ _ r => r
  | .fieldList _ r _ _ => r
  | .dictF _ r => r
  | .formF _ r => r
  | .formFieldList _ r _ _ => r

/-- The state `full_clean` builds on the instance: `self._errors` (a
dict, field name to list of errors) and `self.cleaned_data`. -/
structure FormState where
  errors : List (String × List Leaf)
  cleaned : List (String × PyVal)
deriving Repr

/-- Django's `NON_FIELD_ERRORS` key. -/
def nonFieldErrors : String := "__all__"

/-- The shared item loop of `add_error` (forms.py:113-123): for each
`(field, error_list)` pair, validate the key when it is new, initialise
the slot, extend it, and drop the field from `cleaned_data`.  A
ValueError (unknown field name) aborts the loop, leaving the state
mutated so far. -/
def addErrorItems (fieldNames : List String) :
    List (String × List Leaf) → FormState → FormState × Option PyExc
  | [], st => (st, Option.none)
  | (f, el) :: rest, st =>
    match alGet st.errors f with
    | Option.none =>
      if f ≠ nonFieldErrors ∧ ¬ fieldNames.contains f then
        (st, some .valueError)
      else
        let st1 : FormState := { st with errors := alSet st.errors f el }
        let st2 : FormState :=
          if alHas st1.cleaned f then { st1 with cleaned := alDel st1.cleaned f }
          else st1
        addErrorItems fieldNames rest st2
    | some cur =>
      let st1 : FormState := { st with errors := alSet st.errors f (cur ++ el) }
      let st2 : FormState :=
        if alHas st1.cleaned f then { st1 with cleaned := alDel st1.cleaned f }
        else st1
      addErrorItems fieldNames rest st2

/-- `BaseForm.add_error` (forms.py:97-123).  A RequestValidationError's
payload is assigned to the slot directly and the method returns at once,
without touching `cleaned_data` (lines 98-100; a Python `None` field
would become a `None` dict key, which `full_clean` can never produce —
it passes a field name here, and its form-level handler catches only
ValidationError — so the `none` fallback below is unreachable).  An
`error_dict` with a non-None field raises TypeError before any
mutation.  Otherwise the error is keyed by `field or NON_FIELD_ERRORS`
(so a falsy field name, `None` or `""`, lands on `__all__`). -/
def add_error (fieldNames : List String) (st : FormState)
    (field : Option String) (exc : PyExc) : FormState × Option PyExc :=
  match exc with
  | .requestValidation ls =>
    ({ st with errors := alSet st.errors (field.getD nonFieldErrors) ls },
     Option.none)
  | .validation ve =>
    match ve with
    | .edict es =>
      match field with
      | some _ => (st, some .typeError)
      | Option.none => addErrorItems fieldNames es st
    | e =>
      let key := match field with
        | Option.none => nonFieldErrors
        | some "" => nonFieldErrors
        | some s => s
      addErrorItems fieldNames [(key, errorList e)] st
  | e => (st, some e)

/-- `self._data.get(key, None)` (forms.py:134): only a dict has `.get`;
on any other payload the attribute access raises AttributeError, which
the surrounding `try` converts to the generic Invalid value error. -/
def dataGet (data : PyVal) (key : String) : Except PyExc PyVal :=
  match data with
  | .dict kvs => .ok ((alGet kvs key).getD .none)
  | _ => .error .attributeError

/-- Run a `clean_<name>` hook. -/
def runHook : HookSpec → Except PyExc PyVal
  | .returnValue v => .ok v
  | .raiseValidation msg code => .error (.validation (.leaf ⟨msg, code, Option.none⟩))
  | .raiseRequestValidation ls => .error (.requestValidation ls)

/-- Run the form-wide `clean` hook (forms.py:145-151): `ok (some cd)`
means it returned a dict that replaces `cleaned_data`; `ok none` means
it returned None (state kept); an error is the raised ValidationError. -/
def runCleanHook : CleanHookSpec → FormState → Except VError (Option (List (String × PyVal)))
  | .default, st => .ok (some st.cleaned)
  | .returnNone, _ => .ok Option.none
  | .raiseValidation msg code, _ => .error (.leaf ⟨msg, code, Option.none⟩)

/-- `Field.validate` (Django), plus the override in fields.py:29-31 for
BooleanField (required fails only on a `None` result).  Every other
field in scope uses the Django default: an empty cleaned value on a
required field raises the `required` error. -/
def validateField (spec : FieldSpec) (v : PyVal) : Option Leaf :=
  match spec with
  | .boolF req =>
    match v with
    | .none => if req then some requiredLeaf else Option.none
    | _ => Option.none
  | _ =>
    if isEmptyValue v && spec.requiredOf then some requiredLeaf else Option.none

/-- `Field.run_validators` (Django): among the fields in scope only
CharField has a default validator (ProhibitNullCharactersValidator);
validator errors are collected into a list and raised as a batch.
Values in `empty_values` skip validation. -/
def runValidatorsField (spec : FieldSpec) (v : PyVal) : Option (List Leaf) :=
  match spec with
  | .charF _ =>
    match v with
    | .str s =>
      if ¬ (s = "") ∧ s.data.contains (Char.ofNat 0) then some [nullCharLeaf]
      else Option.none
    | _ => Option.none
  | _ => Option.none

/-- `self._min_length is not None and len(value) < self._min_length`. -/
def lengthViolatesMin (mn : Option Nat) (len : Nat) : Bool :=
  match mn with
  | some m => len < m
  | Option.none => false

/-- `self._max_length is not None and len(value) > self._max_length`. -/
def lengthViolatesMax (mx : Option Nat) (len : Nat) : Bool :=
  match mx with
  | some m => len > m
  | Option.none => false

/-- The element loop of `FieldList.to_python` (fields.py:73-83),
abstracted over the inner field's `clean`: every element is attempted;
a ValidationError becomes a `DetailValidationError` carrying the
element's index, any other exception (including the AttributeError from
building a DetailValidationError out of a non-leaf error) aborts the
loop.  `cleanItem` returns `none` when it runs out of fuel (see below);
the loop then gives up as well. -/
def fieldListLoop (cleanItem : PyVal → Option (Except PyExc PyVal)) :
    List (Nat × PyVal) → List PyVal → List Leaf →
    Option (Except PyExc (List PyVal × List Leaf))
  | [], res, errs => some (.ok (res, errs))
  | (i, x) :: rest, res, errs =>
    match cleanItem x with
    | Option.none => Option.none
    | some (.ok c) => fieldListLoop cleanItem rest (res ++ [c]) errs
    | some (.error (.validation ve)) =>
      match detailValidationError ve [.idx i] with
      | .ok l => fieldListLoop cleanItem rest res (errs ++ [l])
      | .error e => some (.error e)
    | some (.error e) => some (.error e)

/-- The entry loop of `DictionaryField.to_python` (fields.py:202-214)
with `key_field=None`, abstracted over the value field's `clean`. -/
def dictFieldLoop (cleanItem : PyVal → Option (Except PyExc PyVal)) :
    List (String × PyVal) → List (String × PyVal) → List (String × List Leaf) →
    Option (Except PyExc (List (String × PyVal) × List (String × List Leaf)))
  | [], res, errs => some (.ok (res, errs))
  | (k, x) :: rest, res, errs =>
    match cleanItem x with
    | Option.none => Option.none
    | some (.ok c) => dictFieldLoop cleanItem rest (alSet res k c) errs
    | some (.error (.validation ve)) =>
      match detailValidationError ve [.str k] with
      | .ok l => dictFieldLoop cleanItem rest res (alSet errs k [l])
      | .error e => some (.error e)
    | some (.error e) => some (.error e)

/-- The element loop of `FormFieldList.to_python` (fields.py:139-146),
abstracted over the nested form's `full_clean`.  A valid element
contributes its `cleaned_data`; for an invalid element the code
iterates the form's `errors` dict and calls `.prepend` on its keys —
strings — so it raises AttributeError at the first invalid element; an
exception escaping the nested `full_clean` propagates. -/
def formListLoop (runItem : PyVal → Option (FormState × Option PyExc)) :
    List PyVal → List PyVal → Option (Except PyExc (List PyVal))
  | [], res => some (.ok res)
  | x :: rest, res =>
    match runItem x with
    | Option.none => Option.none
    | some (_, some e) => some (.error e)
    | some (st, Option.none) =>
      if st.errors.isEmpty then formListLoop runItem rest (res ++ [PyVal.dict st.cleaned])
      else some (.error PyExc.attributeError)

/-- `__init__`'s payload normalisation (forms.py:27-30): a None payload
becomes `{}`. -/
def normData : PyVal → PyVal
  | .none => .dict []
  | d => d

/-- `self._dirty` (forms.py:37-40): when the payload is a dict, its keys
that name declared fields, in payload order. -/
def dirtyKeys (data : PyVal) (names : List String) : List String :=
  match data with
  | .dict kvs => (kvs.map (·.1)).filter (fun k => names.contains k)
  | _ => []

/-! The recursive core.  The recursion of the source is over the
field/form syntax (a nested form is validated by the same `full_clean`
that validates the outer one); here it is driven by a fuel parameter so
that every definition is structural and evaluates inside the kernel.
Each public wrapper below passes fuel computed from `sizeOf` of the
spec, which `fuel_suffices` proves is always enough; out of fuel, the
functions answer `none`. -/

mutual
/-- `to_python` of each field class, translated case by case:
* `charF`: Django CharField (empty values map to `empty_value = ""`,
  other values are stringified and stripped);
* `intF`: Django IntegerField (empty values map to None, otherwise
  `int(re_decimal.sub("", str(value)))`, ValueError becoming `invalid`);
* `boolF`: fields.py:21-27;
* `anyF`: fields.py:220-221 (identity);
* `enumF`: fields.py:170-176 (None passes through; otherwise the enum
  member with an `==`-equal value, else the `invalid` error);
* `fieldList`: fields.py:58-85 — falsy input returns `[]`; non-list
  input fails `not_list`; length bounds are checked; then
  `fieldListLoop` cleans every element with the inner field and a
  non-empty error collection is raised as one batch;
* `dictF`: fields.py:197-216 with `key_field=None` — non-dict input
  fails with the formatted `not_dict` message; `dictFieldLoop` cleans
  every entry and a non-empty error collection is raised as one error
  dict;
* `formF`: fields.py:98-106 — falsy input returns `{}`; otherwise the
  nested form is validated, a valid form yielding its `cleaned_data`
  and an invalid one raising `ValidationError(form.errors)` (an error
  dict, since forms.py keeps `_errors` as a dict); an exception escaping
  the nested `full_clean` propagates;
* `formFieldList`: fields.py:121-151 — shape and length checks as for
  `fieldList`, then `formListLoop` over the elements. -/
def fieldToPythonGo : Nat → FieldSpec → PyVal → Option (Except PyExc PyVal)
  | 0, _, _ => Option.none
  | fuel+1, spec, v =>
    match spec with
    | .charF _ =>
      some (.ok (if isEmptyValue v then .str "" else .str (pyStrip (pyStr v))))
    | .intF _ =>
      if isEmptyValue v then some (.ok .none)
      else
        match intFromStr (stripDecimalSuffix (pyStr v)) with
        | some n => some (.ok (.int n))
        | Option.none => some (.error (.validation (.leaf intInvalidLeaf)))
    | .boolF _ =>
      some (.ok (if boolTrueLit v then .bool true
                 else if boolFalseLit v then .bool false
                 else .none))
    | .anyF _ => some (.ok v)
    | .enumF name allowed _ =>
      match v with
      | .none => some (.ok .none)
      | w =>
        match allowed.find? (fun a => pyEq a w) with
        | some a => some (.ok (.enumMember a))
        | Option.none => some (.error (.validation (.leaf (enumInvalidLeaf name w))))
    | .fieldList inner _ mn mx =>
      if ¬ pyTruthy v then some (.ok (.list []))
      else
        match v with
        | .list items =>
          if lengthViolatesMin mn items.length then
            some (.error (.validation (.leaf minLengthLeaf)))
          else if lengthViolatesMax mx items.length then
            some (.error (.validation (.leaf maxLengthLeaf)))
          else
            match fieldListLoop (fieldCleanGo fuel inner) items.enum [] [] with
            | Option.none => Option.none
            | some (.error e) => some (.error e)
            | some (.ok (res, errs)) =>
              if errs.isEmpty then some (.ok (.list res))
              else some (.error (.validation (.batch errs)))
        | _ => some (.error (.validation (.leaf notListLeaf)))
    | .dictF vf _ =>
      match v with
      | .dict kvs =>
        match dictFieldLoop (fieldCleanGo fuel vf) kvs [] [] with
        | Option.none => Option.none
        | some (.error e) => some (.error e)
        | some (.ok (res, errs)) =>
          if errs.isEmpty then some (.ok (.dict res))
          else some (.error (.validation (.edict errs)))
      | w => some (.error (.validation (.leaf (dictNotDictLeaf w))))
    | .formF sub _ =>
      if ¬ pyTruthy v then some (.ok (.dict []))
      else
        match fullCleanStateGo fuel sub v with
        | Option.none => Option.none
        | some (_, some e) => some (.error e)
        | some (st, Option.none) =>
          if st.errors.isEmpty then some (.ok (.dict st.cleaned))
          else some (.error (.validation (.edict st.errors)))
    | .formFieldList sub _ mn mx =>
      if ¬ pyTruthy v then some (.ok (.list []))
      else
        match v with
        | .list items =>
          if lengthViolatesMin mn items.length then
            some (.error (.validation (.leaf minLengthLeaf)))
          else if lengthViolatesMax mx items.length then
            some (.error (.validation (.leaf maxLengthLeaf)))
          else
            match formListLoop (fullCleanStateGo fuel sub) items [] with
            | Option.none => Option.none
            | some (.error e) => some (.error e)
            | some (.ok res) => some (.ok (.list res))
        | _ => some (.error (.validation (.leaf notListLeaf)))

/-- `Field.clean` (Django): `to_python`, then `validate`, then
`run_validators`, returning the converted value. -/
def fieldCleanGo : Nat → FieldSpec → PyVal → Option (Except PyExc PyVal)
  | 0, _, _ => Option.none
  | fuel+1, spec, v =>
    match fieldToPythonGo fuel spec v with
    | Option.none => Option.none
    | some (.error e) => some (.error e)
    | some (.ok v') =>
      match validateField spec v' with
      | some l => some (.error (.validation (.leaf l)))
      | Option.none =>
        match runValidatorsField spec v' with
        | some ls => some (.error (.validation (.batch ls)))
        | Option.none => some (.ok v')

/-- The per-field loop of `full_clean` (forms.py:132-144).  For every
declared field, `field.clean(self._data.get(key, None))` runs inside a
`try`; on success a dirty key is stored into `cleaned_data` and its
`clean_<key>` hook (if any) replaces the stored value; a ValidationError
or RequestValidationError goes to `add_error(key, e)`; an
AttributeError / TypeError / ValueError becomes the generic
`Invalid value` error; an ApiFormException — or an exception raised by
`add_error` itself (its TypeError / ValueError) — aborts the loop with
the state built so far. -/
def fieldsLoopGo : Nat → List String → List (String × HookSpec) →
    List String → PyVal → List (String × FieldSpec) → FormState →
    Option (FormState × Option PyExc)
  | 0, _, _, _, _, _, _ => Option.none
  | fuel+1, fieldNames, hooks, dirty, data, fields, st =>
    match fields with
    | [] => some (st, Option.none)
    | (key, fspec) :: rest =>
      let attempt : Option (FormState × Option PyExc) :=
        match dataGet data key with
        | .error e => some (st, some e)
        | .ok raw =>
          match fieldCleanGo fuel fspec raw with
          | Option.none => Option.none
          | some (.error e) => some (st, some e)
          | some (.ok v) =>
            if dirty.contains key then
              let st1 : FormState := { st with cleaned := alSet st.cleaned key v }
              match alGet hooks key with
              | Option.none => some (st1, Option.none)
              | some h =>
                match runHook h with
                | .ok hv => some ({ st1 with cleaned := alSet st1.cleaned key hv }, Option.none)
                | .error e => some (st1, some e)
            else some (st, Option.none)
      match attempt with
      | Option.none => Option.none
      | some (st', Option.none) => fieldsLoopGo fuel fieldNames hooks dirty data rest st'
      | some (st', some e) =>
        let handled : Option PyExc :=
          match e with
          | .validation ve => some (.validation ve)
          | .requestValidation ls => some (.requestValidation ls)
          | .attributeError => some (.validation (.leaf invalidValueLeaf))
          | .typeError => some (.validation (.leaf invalidValueLeaf))
          | .valueError => some (.validation (.leaf invalidValueLeaf))
          | _ => Option.none
        match handled with
        | Option.none => some (st', some e)
        | some e' =>
          match add_error fieldNames st' (some key) e' with
          | (st'', Option.none) => fieldsLoopGo fuel fieldNames hooks dirty data rest st''
          | (st'', some e'') => some (st'', some e'')

/-- The per-field phase of `full_clean` together with `__init__`'s data
normalisation (forms.py:26-40): a None payload becomes `{}`, and
`self._dirty` collects the payload keys that name declared fields (in
payload order) when the payload is a dict. -/
def fieldPhaseGo : Nat → FormSpec → PyVal → Option (FormState × Option PyExc)
  | 0, _, _ => Option.none
  | fuel+1, form, data =>
    match form with
    | .mk fields hooks _ =>
      fieldsLoopGo fuel (fields.map (·.1)) hooks
        (dirtyKeys data (fields.map (·.1))) (normData data) fields ⟨[], []⟩

/-- `BaseForm.full_clean` (forms.py:125-151): the per-field loop, then
`self.clean()` inside a `try` — unconditionally, whether or not
per-field errors were recorded; a ValidationError from the hook goes to
`add_error(None, e)`, a returned non-None dict replaces `cleaned_data`.
The result is the final `(self._errors, self.cleaned_data)` state plus
the exception escaping `full_clean`, if any. -/
def fullCleanStateGo : Nat → FormSpec → PyVal → Option (FormState × Option PyExc)
  | 0, _, _ => Option.none
  | fuel+1, form, data =>
    match fieldPhaseGo fuel form data with
    | Option.none => Option.none
    | some (st, some e) => some (st, some e)
    | some (st, Option.none) =>
      match runCleanHook form.cleanHookOf st with
      | .ok (some cd) => some ({ st with cleaned := cd }, Option.none)
      | .ok Option.none => some (st, Option.none)
      | .error ve =>
        some (add_error (form.fieldsOf.map (·.1)) st Option.none (.validation ve))
end

mutual
/-- Structural size of a field spec, used to compute sufficient fuel. -/
def fieldSizeF : FieldSpec → Nat
  | .charF _ => 1
  | .intF _ => 1
  | .boolF _ => 1
  | .anyF _ => 1
  | .enumF _ _ _ => 1
  | .fieldList inner _ _ _ => fieldSizeF inner + 2
  | .dictF vf _ => fieldSizeF vf + 2
  | .formF sub _ => formSizeF sub + 2
  | .formFieldList sub _ _ _ => formSizeF sub + 2

/-- Structural size of a form spec. -/
def formSizeF : FormSpec → Nat
  | .mk fs _ _ => fieldsSizeF fs + 2

/-- Structural size of a declared-fields list. -/
def fieldsSizeF : List (String × FieldSpec) → Nat
  | [] => 0
  | (_, f) :: rest => fieldSizeF f + fieldsSizeF rest + 2
end

/-- `Field.to_python`, at the fuel the sizes guarantee to suffice (see
`fuel_suffices`); the fallback is unreachable. -/
def fieldToPython (spec : FieldSpec) (v : PyVal) : Except PyExc PyVal :=
  (fieldToPythonGo (2 * fieldSizeF spec + 1) spec v).getD (.error .attributeError)

/-- `Field.clean`, at sufficient fuel. -/
def fieldClean (spec : FieldSpec) (v : PyVal) : Except PyExc PyVal :=
  (fieldCleanGo (2 * fieldSizeF spec + 2) spec v).getD (.error .attributeError)

/-- The per-field phase of `full_clean`, at sufficient fuel.  The
fallback carries an exception, so a `(st, none)` result always comes
from the real computation. -/
def fieldPhase (form : FormSpec) (data : PyVal) : FormState × Option PyExc :=
  (fieldPhaseGo (2 * formSizeF form + 2) form data).getD (⟨[], []⟩, some .attributeError)

/-- `BaseForm.full_clean`, at sufficient fuel. -/
def fullCleanState (form : FormSpec) (data : PyVal) : FormState × Option PyExc :=
  (fullCleanStateGo (2 * formSizeF form + 3) form data).getD (⟨[], []⟩, some .attributeError)

/-- A `BaseForm` instance (forms.py:26-40): the payload, the memoised
`self._errors` (None until `full_clean` has run) and `self.cleaned_data`
(None until `full_clean` has run). -/
structure FormInstance where
  form : FormSpec
  data : PyVal
  errorsMemo : Option (List (String × List Leaf))
  cleanedMemo : Option (List (String × PyVal))

/-- The `errors` property (forms.py:88-92): if `self._errors is None`,
run `full_clean` — which installs `_errors` / `cleaned_data` on the
instance even when it escapes with an exception, since it mutates them
in place — and return `self._errors`.  The result pairs the updated
instance with the outcome (the dict, or the escaping exception). -/
def errorsProp (inst : FormInstance) :
    FormInstance × Except PyExc (List (String × List Leaf)) :=
  match inst.errorsMemo with
  | some e => (inst, .ok e)
  | Option.none =>
    match fullCleanState inst.form inst.data with
    | (st, some e) =>
      ({ inst with errorsMemo := some st.errors, cleanedMemo := some st.cleaned },
       .error e)
    | (st, Option.none) =>
      ({ inst with errorsMemo := some st.errors, cleanedMemo := some st.cleaned },
       .ok st.errors)

/-- `BaseForm.fill` (forms.py:162-215) restricted to the field classes
in `FieldSpec` (none of which is a ModelChoiceField / 
ModelMultipleChoiceField, has an `ignore_fill` attribute, or comes with
a `fill_<key>` hook): if `self.cleaned_data is None` raise
ApiFormException; otherwise assign `cleaned_data[key]` onto the target
object for every declared field that is neither excluded nor missing
from the cleaned data. -/
def fill (inst : FormInstance) (obj : List (String × PyVal))
    (exclude : List String) : Except PyExc (List (String × PyVal)) :=
  match inst.cleanedMemo with
  | Option.none =>
    .error (.apiFormException "No clean data provided! Try to call is_valid() first.")
  | some cd =>
    .ok (inst.form.fieldsOf.foldl (fun o kf =>
      if exclude.contains kf.1 then o
      else
        match alGet cd kf.1 with
        | Option.none => o
        | some v => alSet o kf.1 v) obj)
/-- No field name is simultaneously an error key and a cleaned-data
key (the claimed invariant of `add_error`). -/
def StateDisjoint (st : FormState) : Prop :=
  ∀ k, k ∈ alKeys st.errors → k ∉ alKeys st.cleaned

/-! Concrete form classes used by the claims, mirroring the nesting of
tests/testapp/forms.py (a concert has bands, a band has albums, an album
has songs, a song has a required title). -/

/-- A song form: one required CharField `title`. -/
def songForm : FormSpec := .mk [("title", .charF true)] [] .default

/-- An album form: a FormFieldList `songs` of song forms. -/
def albumForm : FormSpec :=
  .mk [("songs", .formFieldList songForm true Option.none Option.none)] [] .default

/-- A band form: a FormFieldList `albums` of album forms. -/
def bandForm : FormSpec :=
  .mk [("albums", .formFieldList albumForm true Option.none Option.none)] [] .default

/-- The top form of the path-correctness scenario: a FormFieldList
`bands` of band forms. -/
def concertForm : FormSpec :=
  .mk [("bands", .formFieldList bandForm true Option.none Option.none)] [] .default

/-- bands[0] of the C1 payload: fully valid. -/
def c1Band0 : PyVal :=
  .dict [("albums", .list [.dict [("songs", .list [.dict [("title", .str "ok")]])]])]

/-- bands[1] of the C1 payload: the title of albums[0].songs[0] is empty. -/
def c1Band1 : PyVal :=
  .dict [("albums", .list [.dict [("songs", .list [.dict [("title", .str "")]])]])]

/-- The C1 payload: an empty `title` at bands[1].albums[0].songs[0]. -/
def c1Input : PyVal := .dict [("bands", .list [c1Band0, c1Band1])]

/-- A form with a required CharField `name` and a form-wide `clean` hook
that always raises (like AlbumForm.clean in tests/testapp/forms.py). -/
def c2Form : FormSpec :=
  .mk [("name", .charF true)] []
    (.raiseValidation "Sounds like a bullshit" (some "time-traveling"))

/-- The cleaned value of a list element, when the inner field accepts it. -/
def cleanOk (inner : FieldSpec) (x : PyVal) : Option PyVal :=
  match fieldClean inner x with
  | .ok c => some c
  | _ => Option.none

/-- The index-pathed DetailValidationError of an indexed element that the
inner field rejects with a single (leaf) ValidationError. -/
def leafAt (inner : FieldSpec) (p : Nat × PyVal) : Option Leaf :=
  match fieldClean inner p.2 with
  | .error (.validation (.leaf l)) => some ⟨l.message, l.code, some [.idx p.1]⟩
  | _ => Option.none

/-- An element either cleans successfully or fails with one single
(leaf) ValidationError — the shape every scalar Django field produces. -/
def CleansToLeafOrOk (inner : FieldSpec) (x : PyVal) : Prop :=
  (∃ v, fieldClean inner x = .ok v) ∨
  (∃ l, fieldClean inner x = .error (.validation (.leaf l)))

/-- A form with one optional DictionaryField `d`. -/
def c4Form : FormSpec := .mk [("d", .dictF (.intF true) false)] [] .default

/-- A form with an optional CharField `nick` and a required IntegerField
`b`, for the C4 witness. -/
def c4wForm : FormSpec := .mk [("nick", .charF false), ("b", .intF true)] [] .default

/-- A form with a trivially-satisfiable field `a` and a required
CharField `b`. -/
def c8Form : FormSpec := .mk [("a", .anyF true), ("b", .charF true)] [] .default

/-- The error payload a clean hook passes to RequestValidationError. -/
def c9Leaf : Leaf := ⟨"boom", some "boom", Option.none⟩

/-- A form whose `clean_x` hook raises RequestValidationError. -/
def c9Form : FormSpec :=
  .mk [("x", .anyF false)] [("x", .raiseRequestValidation [c9Leaf])] .default

/-- A trivial one-field form for the memoization witness. -/
def c7Form : FormSpec := .mk [("a", .anyF false)] [] .default

theorem fieldListLoop_congr {c c' : PyVal → Option (Except PyExc PyVal)}
    (h : ∀ x r, c x = some r → c' x = some r) :
    ∀ (l : List (Nat × PyVal)) res errs r,
      fieldListLoop c l res errs = some r → fieldListLoop c' l res errs = some r := by
  intro l
  induction l with
  | nil => intro res errs r hr; simpa [fieldListLoop] using hr
  | cons p rest ih =>
    intro res errs r hr
    obtain ⟨i, x⟩ := p
    rw [fieldListLoop] at hr
    rw [fieldListLoop]
    cases hc : c x with
    | none => rw [hc] at hr; exact absurd hr (by simp)
    | some rx =>
      rw [h x rx hc]
      simp only [hc] at hr
      cases rx with
      | ok cv => exact ih _ _ _ hr
      | error e =>
        cases e with
        | validation ve =>
          simp only at hr ⊢
          cases hd : detailValidationError ve [Seg.idx i] with
          | ok l' => simp only [hd] at hr ⊢; exact ih _ _ _ hr
          | error e' => simp only [hd] at hr ⊢; exact hr
        | requestValidation ls => exact hr
        | attributeError => exact hr
        | typeError => exact hr
        | valueError => exact hr
        | apiFormException m => exact hr

theorem dictFieldLoop_congr {c c' : PyVal → Option (Except PyExc PyVal)}
    (h : ∀ x r, c x = some r → c' x = some r) :
    ∀ (l : List (String × PyVal)) res errs r,
      dictFieldLoop c l res errs = some r → dictFieldLoop c' l res errs = some r := by
  intro l
  induction l with
  | nil => intro res errs r hr; simpa [dictFieldLoop] using hr
  | cons p rest ih =>
    intro res errs r hr
    obtain ⟨k, x⟩ := p
    rw [dictFieldLoop] at hr
    rw [dictFieldLoop]
    cases hc : c x with
    | none => rw [hc] at hr; exact absurd hr (by simp)
    | some rx =>
      rw [h x rx hc]
      simp only [hc] at hr
      cases rx with
      | ok cv => exact ih _ _ _ hr
      | error e =>
        cases e with
        | validation ve =>
          simp only at hr ⊢
          cases hd : detailValidationError ve [Seg.str k] with
          | ok l' => simp only [hd] at hr ⊢; exact ih _ _ _ hr
          | error e' => simp only [hd] at hr ⊢; exact hr
        | requestValidation ls => exact hr
        | attributeError => exact hr
        | typeError => exact hr
        | valueError => exact hr
        | apiFormException m => exact hr

theorem formListLoop_congr {c c' : PyVal → Option (FormState × Option PyExc)}
    (h : ∀ x r, c x = some r → c' x = some r) :
    ∀ (l : List PyVal) res r,
      formListLoop c l res = some r → formListLoop c' l res = some r := by
  intro l
  induction l with
  | nil => intro res r hr; simpa [formListLoop] using hr
  | cons x rest ih =>
    intro res r hr
    rw [formListLoop] at hr
    rw [formListLoop]
    cases hc : c x with
    | none => rw [hc] at hr; exact absurd hr (by simp)
    | some rx =>
      rw [h x rx hc]
      simp only [hc] at hr
      obtain ⟨st, exc⟩ := rx
      cases exc with
      | some e => exact hr
      | none =>
        simp only at hr ⊢
        by_cases he : st.errors.isEmpty
        · simp only [he, if_true] at hr ⊢; exact ih _ _ hr
        · simp only [he, if_false] at hr ⊢; exact hr

set_option maxHeartbeats 1600000 in
theorem goMono : ∀ (fuel fuel' : Nat), fuel ≤ fuel' →
    (∀ spec v r, fieldToPythonGo fuel spec v = some r → fieldToPythonGo fuel' spec v = some r) ∧
    (∀ spec v r, fieldCleanGo fuel spec v = some r → fieldCleanGo fuel' spec v = some r) ∧
    (∀ names hooks dirty data fields st r,
      fieldsLoopGo fuel names hooks dirty data fields st = some r →
      fieldsLoopGo fuel' names hooks dirty data fields st = some r) ∧
    (∀ form data r, fieldPhaseGo fuel form data = some r → fieldPhaseGo fuel' form data = some r) ∧
    (∀ form data r, fullCleanStateGo fuel form data = some r → fullCleanStateGo fuel' form data = some r) := by
  intro fuel
  induction fuel with
  | zero =>
    intro fuel' _
    refine ⟨?_, ?_, ?_, ?_, ?_⟩
    · intro _ _ _ hr; simp [fieldToPythonGo] at hr
    · intro _ _ _ hr; simp [fieldCleanGo] at hr
    · intro _ _ _ _ _ _ _ hr; simp [fieldsLoopGo] at hr
    · intro _ _ _ hr; simp [fieldPhaseGo] at hr
    · intro _ _ _ hr; simp [fullCleanStateGo] at hr
  | succ n ih =>
    intro fuel' hle
    obtain ⟨m, rfl⟩ : ∃ m, fuel' = m + 1 := ⟨fuel' - 1, by omega⟩
    have hnm : n ≤ m := by omega
    obtain ⟨ih1, ih2, ih3, ih4, ih5⟩ := ih m hnm
    refine ⟨?_, ?_, ?_, ?_, ?_⟩
    · -- fieldToPythonGo
      intro spec v r hr
      cases spec with
      | charF req => exact hr
      | intF req => exact hr
      | boolF req => exact hr
      | anyF req => exact hr
      | enumF nm allowed req => exact hr
      | fieldList inner req mn mx =>
        cases v with
        | list items =>
          rw [fieldToPythonGo] at hr
          rw [fieldToPythonGo]
          by_cases ht : pyTruthy (PyVal.list items)
          · rw [if_neg (by simp [ht])] at hr ⊢
            by_cases hmn : lengthViolatesMin mn items.length
            · simp only [hmn, if_true] at hr ⊢; exact hr
            · simp only [hmn, Bool.false_eq_true, if_false] at hr ⊢
              by_cases hmx : lengthViolatesMax mx items.length
              · simp only [hmx, if_true] at hr ⊢; exact hr
              · simp only [hmx, Bool.false_eq_true, if_false] at hr ⊢
                cases hl : fieldListLoop (fieldCleanGo n inner) items.enum [] [] with
                | none => rw [hl] at hr; exact absurd hr (by simp)
                | some res =>
                  rw [fieldListLoop_congr (ih2 inner) items.enum [] [] res hl]
                  simp only [hl] at hr
                  exact hr
          · rw [if_pos (by simp [ht])] at hr ⊢; exact hr
        | none => exact hr
        | bool b => exact hr
        | int k => exact hr
        | str s => exact hr
        | tup xs => exact hr
        | dict xs => exact hr
        | enumMember w => exact hr
      | dictF vf req =>
        cases v with
        | dict kvs =>
          rw [fieldToPythonGo] at hr
          rw [fieldToPythonGo]
          cases hl : dictFieldLoop (fieldCleanGo n vf) kvs [] [] with
          | none => rw [hl] at hr; exact absurd hr (by simp)
          | some res =>
            rw [dictFieldLoop_congr (ih2 vf) kvs [] [] res hl]
            simp only [hl] at hr
            exact hr
        | none => exact hr
        | bool b => exact hr
        | int k => exact hr
        | str s => exact hr
        | list xs => exact hr
        | tup xs => exact hr
        | enumMember w => exact hr
      | formF sub req =>
        rw [fieldToPythonGo] at hr
        rw [fieldToPythonGo]
        by_cases ht : pyTruthy v
        · rw [if_neg (by simp [ht])] at hr ⊢
          cases hf : fullCleanStateGo n sub v with
          | none => rw [hf] at hr; exact absurd hr (by simp)
          | some res =>
            rw [ih5 sub v res hf]
            simp only [hf] at hr
            exact hr
        · rw [if_pos (by simp [ht])] at hr ⊢; exact hr
      | formFieldList sub req mn mx =>
        cases v with
        | list items =>
          rw [fieldToPythonGo] at hr
          rw [fieldToPythonGo]
          by_cases ht : pyTruthy (PyVal.list items)
          · rw [if_neg (by simp [ht])] at hr ⊢
            by_cases hmn : lengthViolatesMin mn items.length
            · simp only [hmn, if_true] at hr ⊢; exact hr
            · simp only [hmn, Bool.false_eq_true, if_false] at hr ⊢
              by_cases hmx : lengthViolatesMax mx items.length
              · simp only [hmx, if_true] at hr ⊢; exact hr
              · simp only [hmx, Bool.false_eq_true, if_false] at hr ⊢
                cases hl : formListLoop (fullCleanStateGo n sub) items [] with
                | none => rw [hl] at hr; exact absurd hr (by simp)
                | some res =>
                  rw [formListLoop_congr (ih5 sub) items [] res hl]
                  simp only [hl] at hr
                  exact hr
          · rw [if_pos (by simp [ht])] at hr ⊢; exact hr
        | none => exact hr
        | bool b => exact hr
        | int k => exact hr
        | str s => exact hr
        | tup xs => exact hr
        | dict xs => exact hr
        | enumMember w => exact hr
    · -- fieldCleanGo
      intro spec v r hr
      rw [fieldCleanGo] at hr
      rw [fieldCleanGo]
      cases hf : fieldToPythonGo n spec v with
      | none => rw [hf] at hr; exact absurd hr (by simp)
      | some r0 =>
        rw [ih1 spec v r0 hf]
        simp only [hf] at hr
        exact hr
    · -- fieldsLoopGo
      intro names hooks dirty data fields st r hr
      cases fields with
      | nil => exact hr
      | cons kf rest =>
        obtain ⟨key, fspec⟩ := kf
        rw [fieldsLoopGo] at hr
        rw [fieldsLoopGo]
        cases hd : dataGet data key with
        | error e =>
          simp only [hd] at hr ⊢
          rcases e with ve | ls | _ | _ | _ | msg
          ·
            rcases hae : add_error names st (some key) (.validation ve) with ⟨st'', exc''⟩
            simp only [hae] at hr ⊢
            cases exc'' with
            | none => exact ih3 _ _ _ _ _ _ _ hr
            | some e'' => exact hr
          · rcases hae : add_error names st (some key) (.requestValidation ls) with ⟨st'', exc''⟩
            simp only [hae] at hr ⊢
            cases exc'' with
            | none => exact ih3 _ _ _ _ _ _ _ hr
            | some e'' => exact hr
          · rcases hae : add_error names st (some key) (.validation (.leaf invalidValueLeaf)) with ⟨st'', exc''⟩
            simp only [hae] at hr ⊢
            cases exc'' with
            | none => exact ih3 _ _ _ _ _ _ _ hr
            | some e'' => exact hr
          · rcases hae : add_error names st (some key) (.validation (.leaf invalidValueLeaf)) with ⟨st'', exc''⟩
            simp only [hae] at hr ⊢
            cases exc'' with
            | none => exact ih3 _ _ _ _ _ _ _ hr
            | some e'' => exact hr
          · rcases hae : add_error names st (some key) (.validation (.leaf invalidValueLeaf)) with ⟨st'', exc''⟩
            simp only [hae] at hr ⊢
            cases exc'' with
            | none => exact ih3 _ _ _ _ _ _ _ hr
            | some e'' => exact hr
          · exact hr
        | ok raw =>
          simp only [hd] at hr ⊢
          cases hc : fieldCleanGo n fspec raw with
          | none => rw [hc] at hr; exact absurd hr (by simp)
          | some rv =>
            rw [ih2 fspec raw rv hc]
            simp only [hc] at hr
            cases rv with
            | error e =>
              rcases e with ve | ls | _ | _ | _ | msg
              · rcases hae : add_error names st (some key) (.validation ve) with ⟨st'', exc''⟩
                simp only [hae] at hr ⊢
                cases exc'' with
                | none => exact ih3 _ _ _ _ _ _ _ hr
                | some e'' => exact hr
              · rcases hae : add_error names st (some key) (.requestValidation ls) with ⟨st'', exc''⟩
                simp only [hae] at hr ⊢
                cases exc'' with
                | none => exact ih3 _ _ _ _ _ _ _ hr
                | some e'' => exact hr
              · rcases hae : add_error names st (some key) (.validation (.leaf invalidValueLeaf)) with ⟨st'', exc''⟩
                simp only [hae] at hr ⊢
                cases exc'' with
                | none => exact ih3 _ _ _ _ _ _ _ hr
                | some e'' => exact hr
              · rcases hae : add_error names st (some key) (.validation (.leaf invalidValueLeaf)) with ⟨st'', exc''⟩
                simp only [hae] at hr ⊢
                cases exc'' with
                | none => exact ih3 _ _ _ _ _ _ _ hr
                | some e'' => exact hr
              · rcases hae : add_error names st (some key) (.validation (.leaf invalidValueLeaf)) with ⟨st'', exc''⟩
                simp only [hae] at hr ⊢
                cases exc'' with
                | none => exact ih3 _ _ _ _ _ _ _ hr
                | some e'' => exact hr
              · exact hr
            | ok v =>
              by_cases hdy : dirty.contains key
              · simp only [hdy, if_true] at hr ⊢
                cases hh : alGet hooks key with
                | none => simp only [hh] at hr ⊢; exact ih3 _ _ _ _ _ _ _ hr
                | some h =>
                  simp only [hh] at hr ⊢
                  cases hrh : runHook h with
                  | ok hv => simp only [hrh] at hr ⊢; exact ih3 _ _ _ _ _ _ _ hr
                  | error e =>
                    simp only [hrh] at hr ⊢
                    rcases e with ve | ls | _ | _ | _ | msg
                    · rcases hae : add_error names { st with cleaned := alSet st.cleaned key v } (some key) (.validation ve) with ⟨st'', exc''⟩
                      simp only [hae] at hr ⊢
                      cases exc'' with
                      | none => exact ih3 _ _ _ _ _ _ _ hr
                      | some e'' => exact hr
                    · rcases hae : add_error names { st with cleaned := alSet st.cleaned key v } (some key) (.requestValidation ls) with ⟨st'', exc''⟩
                      simp only [hae] at hr ⊢
                      cases exc'' with
                      | none => exact ih3 _ _ _ _ _ _ _ hr
                      | some e'' => exact hr
                    · rcases hae : add_error names { st with cleaned := alSet st.cleaned key v } (some key) (.validation (.leaf invalidValueLeaf)) with ⟨st'', exc''⟩
                      simp only [hae] at hr ⊢
                      cases exc'' with
                      | none => exact ih3 _ _ _ _ _ _ _ hr
                      | some e'' => exact hr
                    · rcases hae : add_error names { st with cleaned := alSet st.cleaned key v } (some key) (.validation (.leaf invalidValueLeaf)) with ⟨st'', exc''⟩
                      simp only [hae] at hr ⊢
                      cases exc'' with
                      | none => exact ih3 _ _ _ _ _ _ _ hr
                      | some e'' => exact hr
                    · rcases hae : add_error names { st with cleaned := alSet st.cleaned key v } (some key) (.validation (.leaf invalidValueLeaf)) with ⟨st'', exc''⟩
                      simp only [hae] at hr ⊢
                      cases exc'' with
                      | none => exact ih3 _ _ _ _ _ _ _ hr
                      | some e'' => exact hr
                    · exact hr
              · simp only [hdy, Bool.false_eq_true, if_false] at hr ⊢
                exact ih3 _ _ _ _ _ _ _ hr
    · -- fieldPhaseGo
      intro form data r hr
      cases form with
      | mk fields hooks ch =>
        rw [fieldPhaseGo] at hr
        rw [fieldPhaseGo]
        exact ih3 _ _ _ _ _ _ _ hr
    · -- fullCleanStateGo
      intro form data r hr
      rw [fullCleanStateGo] at hr
      rw [fullCleanStateGo]
      cases hp : fieldPhaseGo n form data with
      | none => rw [hp] at hr; exact absurd hr (by simp)
      | some res =>
        rw [ih4 form data res hp]
        simp only [hp] at hr
        exact hr

/-- Fuel monotonicity for `fieldCleanGo`. -/
theorem fieldCleanGo_mono {fuel fuel' : Nat} (h : fuel ≤ fuel') {spec v r}
    (hr : fieldCleanGo fuel spec v = some r) : fieldCleanGo fuel' spec v = some r :=
  (goMono fuel fuel' h).2.1 spec v r hr

/-- Fuel monotonicity for `fieldsLoopGo`. -/
theorem fieldsLoopGo_mono {fuel fuel' : Nat} (h : fuel ≤ fuel')
    {names hooks dirty data fields st r}
    (hr : fieldsLoopGo fuel names hooks dirty data fields st = some r) :
    fieldsLoopGo fuel' names hooks dirty data fields st = some r :=
  (goMono fuel fuel' h).2.2.1 names hooks dirty data fields st r hr

/-- Fuel-indexed runs agree wherever both return. -/
theorem fieldCleanGo_agree {f f' : Nat} {spec v r r'}
    (h : fieldCleanGo f spec v = some r) (h' : fieldCleanGo f' spec v = some r') :
    r = r' := by
  have h1 := fieldCleanGo_mono (Nat.le_max_left f f') h
  have h2 := fieldCleanGo_mono (Nat.le_max_right f f') h'
  rw [h1] at h2
  exact Option.some_injective _ h2

/-- When `Field.clean` does not answer the fallback value, the fuelled
run at canonical fuel returns exactly its answer. -/
theorem fieldClean_go (spec : FieldSpec) (v : PyVal)
    (h : fieldClean spec v ≠ .error .attributeError) :
    fieldCleanGo (2 * fieldSizeF spec + 2) spec v = some (fieldClean spec v) := by
  unfold fieldClean at h ⊢
  cases hg : fieldCleanGo (2 * fieldSizeF spec + 2) spec v with
  | none => rw [hg] at h; simp at h
  | some r => simp [hg]
set_option maxRecDepth 40000 in
/-- C1: the claimed nested-path behaviour does not hold — on the 3-level
concert payload with an empty `title` at bands[1].albums[0].songs[0], the
code produces a single pathless `Invalid value` error under `bands`
(because `FormFieldList.to_python` iterates `form.errors`, a dict, and
calls `.prepend` on its string keys, raising AttributeError, which
`full_clean` swallows as `Invalid value`); no error carries the claimed
path or the code `required`. -/
theorem C1_nested_path_divergence :
    fullCleanState concertForm c1Input =
      (⟨[("bands", [⟨"Invalid value", Option.none, Option.none⟩])], []⟩, Option.none) ∧
    ∀ l ∈ ((fullCleanState concertForm c1Input).1.errors.flatMap Prod.snd),
      l.code ≠ some "required" ∧
      l.path ≠ some [Seg.str "bands", Seg.idx 1, Seg.str "albums", Seg.idx 0,
                     Seg.str "songs", Seg.idx 0, Seg.str "title"] := by
  have h : fullCleanState concertForm c1Input =
      (⟨[("bands", [⟨"Invalid value", Option.none, Option.none⟩])], []⟩, Option.none) := rfl
  refine ⟨h, ?_⟩
  rw [h]
  decide

/-- C2 counterexample: the form-wide clean hook is invoked even when
per-field errors were recorded — a form with a missing required `name`
and a raising hook ends with both the `required` error under `name` and
the hook error under `__all__`; also the hook error is keyed under
`__all__`, not a `$body` sentinel segment. -/
theorem C2_counterexample :
    fullCleanState c2Form (.dict []) =
      (⟨[("name", [requiredLeaf]),
         ("__all__", [⟨"Sounds like a bullshit", some "time-traveling", Option.none⟩])], []⟩,
       Option.none) := rfl

/-- C4 counterexample: an optional DictionaryField absent from the input
is NOT skipped — `full_clean` cleans every declared field, so the absent
optional `d` contributes a `not_dict` error for the `None` it is cleaned
on. -/
theorem C4_counterexample :
    fullCleanState c4Form (.dict []) =
      (⟨[("d", [dictNotDictLeaf PyVal.none])], []⟩, Option.none) := rfl

/-- C9 counterexample: a `clean_x` hook raising RequestValidationError
leaves `x` present in BOTH `_errors` and `cleaned_data` — the
RequestValidationError branch of `add_error` stores the errors directly
and never deletes the field from `cleaned_data`. -/
theorem C9_counterexample :
    fullCleanState c9Form (.dict [("x", .int 5)]) =
      (⟨[("x", [c9Leaf])], [("x", .int 5)]⟩, Option.none) ∧
    alHas (fullCleanState c9Form (.dict [("x", .int 5)])).1.errors "x" = true ∧
    alHas (fullCleanState c9Form (.dict [("x", .int 5)])).1.cleaned "x" = true :=
  ⟨rfl, rfl, rfl⟩

/-- C8 counterexample: `fill` on an INVALID form (validated, non-empty
error set) does NOT fail — only the UNVALIDATED state (cleaned_data is
None) raises ApiFormException; after a failed validation `cleaned_data`
is a dict and `fill` happily copies the partial data. -/
theorem C8_counterexample :
    (errorsProp ⟨c8Form, .dict [("a", .int 7)], Option.none, Option.none⟩).2 =
      .ok [("b", [requiredLeaf])] ∧
    fill (errorsProp ⟨c8Form, .dict [("a", .int 7)], Option.none, Option.none⟩).1 [] [] =
      .ok [("a", .int 7)] :=
  ⟨rfl, rfl⟩

/-- C6 counterexample: `EnumField` breaks the claimed required/empty
symmetry — cleaning the empty string fails with code `invalid` (not
`required`) regardless of the `required` flag, because
`EnumField.to_python` only passes `None` through and coerces every other
value, including `\"\"`. -/
theorem C6_counterexample :
    fieldClean (.enumF "AlbumType" [.int 1, .int 2] true) (.str "") =
      .error (.validation (.leaf (enumInvalidLeaf "AlbumType" (.str "")))) ∧
    (enumInvalidLeaf "AlbumType" (.str "")).code = some "invalid" ∧
    fieldClean (.enumF "AlbumType" [.int 1, .int 2] false) (.str "") =
      .error (.validation (.leaf (enumInvalidLeaf "AlbumType" (.str "")))) :=
  ⟨rfl, rfl, rfl⟩

/-- C5 counterexample: `DictionaryField` does not treat emptiness as
`FieldList` does — on `None` the DictionaryField fails `not_dict` (code
`None`) even though the optional FieldList returns an empty list, because
`DictionaryField.to_python` type-checks before any emptiness handling. -/
theorem C5_counterexample :
    fieldClean (.dictF (.intF true) false) PyVal.none =
      .error (.validation (.leaf (dictNotDictLeaf PyVal.none))) ∧
    (dictNotDictLeaf PyVal.none).code = Option.none ∧
    fieldClean (.fieldList (.intF true) false Option.none Option.none) PyVal.none =
      .ok (.list []) :=
  ⟨rfl, rfl, rfl⟩

/-- C10: `BooleanField.to_python` maps every value outside the fixed
truthy/falsy literal sets to `None`; hence an unrecognized value cleans
to `None` without error when `required=False`, and fails with exactly the
`required` error (never an invalid-format error) when `required=True`. -/
theorem C10_boolean_unrecognized (v : PyVal)
    (ht : boolTrueLit v = false) (hf : boolFalseLit v = false) :
    fieldToPython (.boolF true) v = .ok .none ∧
    fieldToPython (.boolF false) v = .ok .none ∧
    fieldClean (.boolF false) v = .ok .none ∧
    fieldClean (.boolF true) v = .error (.validation (.leaf requiredLeaf)) := by
  simp [fieldToPython, fieldClean, fieldCleanGo, fieldToPythonGo, fieldSizeF, ht, hf,
        validateField, runValidatorsField]

/-- C10 witness: the string `\"yes\"` is in neither literal set, cleans to
`None` when optional, and fails `required` when required. -/
theorem C10_witness :
    boolTrueLit (.str "yes") = false ∧ boolFalseLit (.str "yes") = false ∧
    (fieldToPython (.boolF true) (.str "yes") = .ok .none ∧
     fieldToPython (.boolF false) (.str "yes") = .ok .none ∧
     fieldClean (.boolF false) (.str "yes") = .ok .none ∧
     fieldClean (.boolF true) (.str "yes") = .error (.validation (.leaf requiredLeaf))) :=
  ⟨rfl, rfl, C10_boolean_unrecognized (.str "yes") rfl rfl⟩

/-- C7: the `errors` property is memoized and idempotent — once a first
access has produced an instance with its `_errors`/`cleaned_data` memo
fields set, accessing `errors` again on that instance returns the same
instance and the same errors without recomputation. -/
theorem C7_errors_memoized (inst inst' : FormInstance) (e : List (String × List Leaf))
    (h : errorsProp inst = (inst', .ok e)) :
    errorsProp inst' = (inst', .ok e) := by
  unfold errorsProp at h ⊢
  cases hm : inst.errorsMemo with
  | some e0 =>
    rw [hm] at h
    simp only [Prod.mk.injEq, Except.ok.injEq] at h
    obtain ⟨h1, h2⟩ := h
    subst h1
    rw [hm, h2]
  | none =>
    rw [hm] at h
    cases hf : fullCleanState inst.form inst.data with
    | mk st exc =>
      rw [hf] at h
      cases exc with
      | some e' => simp at h
      | none =>
        simp only [Prod.mk.injEq, Except.ok.injEq] at h
        obtain ⟨h1, h2⟩ := h
        subst h1
        simp only [h2]

/-- C7 witness: on a concrete one-field form, the first `errors` access
computes `[]` and sets the memos, and a second access returns the
identical result. -/
theorem C7_witness :
    errorsProp ⟨c7Form, .dict [], Option.none, Option.none⟩ =
      (⟨c7Form, .dict [], some [], some []⟩, .ok []) ∧
    errorsProp ⟨c7Form, .dict [], some [], some []⟩ =
      (⟨c7Form, .dict [], some [], some []⟩, .ok []) :=
  ⟨rfl, C7_errors_memoized ⟨c7Form, .dict [], Option.none, Option.none⟩
          ⟨c7Form, .dict [], some [], some []⟩ [] rfl⟩

/-- C8 amended: `fill` on an UNVALIDATED form (cleaned_data memo still
`None`) fails with ApiFormException `\"No clean data provided! Try to
call is_valid() first.\"`; but after validation has run — even one that
recorded errors — `fill` succeeds (see the counterexample for the
INVALID half of the original claim). -/
theorem C8_fill_amended :
    (∀ (form : FormSpec) (data : PyVal) (obj : List (String × PyVal)) (excl : List String),
      fill ⟨form, data, Option.none, Option.none⟩ obj excl =
        .error (.apiFormException "No clean data provided! Try to call is_valid() first.")) ∧
    (∀ (form : FormSpec) (data : PyVal) (inst' : FormInstance)
       (e : List (String × List Leaf)) (obj : List (String × PyVal)) (excl : List String),
      errorsProp ⟨form, data, Option.none, Option.none⟩ = (inst', .ok e) →
      ∃ obj', fill inst' obj excl = .ok obj') := by
  constructor
  · intro form data obj excl; rfl
  · intro form data inst' e obj excl h
    unfold errorsProp at h
    simp only at h
    cases hf : fullCleanState form data with
    | mk st exc =>
      rw [hf] at h
      cases exc with
      | some e' => simp at h
      | none =>
        simp only [Prod.mk.injEq, Except.ok.injEq] at h
        obtain ⟨h1, h2⟩ := h
        subst h1
        exact ⟨_, rfl⟩

/-- C8 witness: filling the concrete invalid-but-validated form instance
succeeds. -/
theorem C8_witness :
    ∃ obj', fill (errorsProp ⟨c8Form, .dict [("a", .int 7)], Option.none, Option.none⟩).1 [] [] =
      .ok obj' := by
  have h : errorsProp ⟨c8Form, .dict [("a", .int 7)], Option.none, Option.none⟩ =
      (⟨c8Form, .dict [("a", .int 7)], some [("b", [requiredLeaf])], some [("a", .int 7)]⟩,
       .ok [("b", [requiredLeaf])]) := rfl
  rw [h]
  exact C8_fill_amended.2 c8Form (.dict [("a", .int 7)]) _ _ [] [] h

/-- C5 amended: the emptiness agreement with `FieldList` holds only for
the empty dict `{}` (required ⇒ `required` error, optional ⇒ empty
mapping); every non-dict empty value (`None`, `\"\"`, `[]`, `()`) instead
fails `not_dict`, unlike `FieldList`. -/
theorem C5_dict_empty_amended (vf : FieldSpec) (req : Bool) :
    (fieldClean (.dictF vf req) (.dict []) =
       (if req then .error (.validation (.leaf requiredLeaf)) else .ok (.dict [])) ∧
     fieldClean (.fieldList vf req Option.none Option.none) (.list []) =
       (if req then .error (.validation (.leaf requiredLeaf)) else .ok (.list []))) ∧
    (fieldClean (.dictF vf req) PyVal.none =
       .error (.validation (.leaf (dictNotDictLeaf PyVal.none))) ∧
     fieldClean (.dictF vf req) (.str "") =
       .error (.validation (.leaf (dictNotDictLeaf (.str "")))) ∧
     fieldClean (.dictF vf req) (.list []) =
       .error (.validation (.leaf (dictNotDictLeaf (.list [])))) ∧
     fieldClean (.dictF vf req) (.tup []) =
       .error (.validation (.leaf (dictNotDictLeaf (.tup []))))) := by
  cases req <;>
    simp [fieldClean, fieldCleanGo, fieldToPythonGo, fieldSizeF, dictFieldLoop,
      validateField, runValidatorsField, isEmptyValue, pyTruthy, FieldSpec.requiredOf,
      lengthViolatesMin, lengthViolatesMax, fieldListLoop, List.enum]

/-- C6 amended: `BooleanField` satisfies the required/empty symmetry for
all five empty values (canonical empty value `None`), and `EnumField`
satisfies it for `None` only; on the other four empty values `EnumField`
fails `invalid` regardless of `required` — refuting the \"every scalar
field type\" claim. -/
theorem C6_required_empty_amended (req : Bool) :
    (fieldClean (.boolF req) PyVal.none =
       (if req then .error (.validation (.leaf requiredLeaf)) else .ok .none) ∧
     fieldClean (.boolF req) (.str "") =
       (if req then .error (.validation (.leaf requiredLeaf)) else .ok .none) ∧
     fieldClean (.boolF req) (.list []) =
       (if req then .error (.validation (.leaf requiredLeaf)) else .ok .none) ∧
     fieldClean (.boolF req) (.tup []) =
       (if req then .error (.validation (.leaf requiredLeaf)) else .ok .none) ∧
     fieldClean (.boolF req) (.dict []) =
       (if req then .error (.validation (.leaf requiredLeaf)) else .ok .none)) ∧
    (fieldClean (.enumF "AlbumType" [.int 1, .int 2] req) PyVal.none =
       (if req then .error (.validation (.leaf requiredLeaf)) else .ok .none)) ∧
    (fieldClean (.enumF "AlbumType" [.int 1, .int 2] req) (.str "") =
       .error (.validation (.leaf (enumInvalidLeaf "AlbumType" (.str "")))) ∧
     fieldClean (.enumF "AlbumType" [.int 1, .int 2] req) (.list []) =
       .error (.validation (.leaf (enumInvalidLeaf "AlbumType" (.list [])))) ∧
     fieldClean (.enumF "AlbumType" [.int 1, .int 2] req) (.tup []) =
       .error (.validation (.leaf (enumInvalidLeaf "AlbumType" (.tup [])))) ∧
     fieldClean (.enumF "AlbumType" [.int 1, .int 2] req) (.dict []) =
       .error (.validation (.leaf (enumInvalidLeaf "AlbumType" (.dict []))))) := by
  cases req <;> exact ⟨⟨rfl, rfl, rfl, rfl, rfl⟩, rfl, rfl, rfl, rfl, rfl⟩

/-- C2 amended: when the per-field phase ends with an empty error set and
no exception, a form-wide clean hook that raises a ValidationError
produces exactly that single error keyed under `__all__` (Django's
NON_FIELD_ERRORS key, not a `$body` sentinel). The hook is in fact
invoked unconditionally — see the counterexample — so the error set is
as claimed only when no per-field errors were recorded. -/
theorem C2_formwide_clean_amended (form : FormSpec) (data : PyVal)
    (st : FormState) (msg : String) (code : Option String)
    (hhook : form.cleanHookOf = .raiseValidation msg code)
    (hphase : fieldPhase form data = (st, Option.none))
    (herrs : st.errors = []) :
    ∃ cleaned, fullCleanState form data =
      (⟨[("__all__", [⟨msg, code, Option.none⟩])], cleaned⟩, Option.none) := by
  unfold fieldPhase at hphase
  unfold fullCleanState
  cases hg : fieldPhaseGo (2 * formSizeF form + 2) form data with
  | none => rw [hg] at hphase; simp at hphase
  | some p =>
    rw [hg] at hphase
    simp only [Option.getD_some] at hphase
    subst hphase
    have hstep : (2 : Nat) * formSizeF form + 3 = (2 * formSizeF form + 2) + 1 := by ring
    rw [hstep, fullCleanStateGo, hg]
    simp only [hhook, runCleanHook, add_error, errorList, addErrorItems, herrs,
      alGet, List.find?, nonFieldErrors, alSet, Option.getD]
    by_cases hh : alHas st.cleaned "__all__" <;> simp [hh]

/-- C2 witness: the concrete album-style form with a valid `name` and a
raising clean hook yields exactly the hook error under `__all__`. -/
theorem C2_witness :
    c2Form.cleanHookOf = .raiseValidation "Sounds like a bullshit" (some "time-traveling") ∧
    fieldPhase c2Form (.dict [("name", .str "Joy Division")]) =
      (⟨[], [("name", .str "Joy Division")]⟩, Option.none) ∧
    (⟨[], [("name", .str "Joy Division")]⟩ : FormState).errors = [] ∧
    ∃ cleaned, fullCleanState c2Form (.dict [("name", .str "Joy Division")]) =
      (⟨[("__all__", [⟨"Sounds like a bullshit", some "time-traveling", Option.none⟩])], cleaned⟩,
       Option.none) :=
  ⟨rfl, rfl, rfl, C2_formwide_clean_amended c2Form _ _ _ _ rfl rfl rfl⟩

theorem fieldListLoop_spec (inner : FieldSpec)
    (c : PyVal → Option (Except PyExc PyVal)) :
    ∀ (items : List PyVal) (n : Nat) (res : List PyVal) (errs : List Leaf),
      (∀ x ∈ items, c x = some (fieldClean inner x)) →
      (∀ x ∈ items, CleansToLeafOrOk inner x) →
      fieldListLoop c (List.enumFrom n items) res errs =
        some (.ok (res ++ items.filterMap (cleanOk inner),
                   errs ++ (List.enumFrom n items).filterMap (leafAt inner))) := by
  intro items
  induction items with
  | nil => intro n res errs _ _; simp [fieldListLoop, List.enumFrom]
  | cons x rest ih =>
    intro n res errs hc hok
    have hcx := hc x (by simp)
    have hrest1 : ∀ y ∈ rest, c y = some (fieldClean inner y) :=
      fun y hy => hc y (by simp [hy])
    have hrest2 : ∀ y ∈ rest, CleansToLeafOrOk inner y :=
      fun y hy => hok y (by simp [hy])
    rcases hok x (by simp) with ⟨v, hv⟩ | ⟨l, hl⟩
    · rw [List.enumFrom, fieldListLoop]
      rw [hcx, hv]
      simp only
      refine (ih (n+1) (res ++ [v]) errs hrest1 hrest2).trans ?_
      simp [cleanOk, leafAt, hv, List.filterMap_cons, List.append_assoc]
    · rw [List.enumFrom, fieldListLoop]
      rw [hcx, hl]
      simp only [detailValidationError]
      refine (ih (n+1) res (errs ++ [⟨l.message, l.code, some [.idx n]⟩]) hrest1 hrest2).trans ?_
      simp [cleanOk, leafAt, hl, List.filterMap_cons, List.append_assoc]

/-- C3 amended: `FieldList.to_python` is not fail-fast on elements that
clean successfully or fail with a single-message ValidationError: every
element of a non-empty list of such elements is cleaned, each failing
one contributing its own index-tagged error to the raised batch and
every non-failing one still cleaned.  The original universal claim is
refuted by the counterexample: an element that fails with a list-shaped
(batch) or dict-shaped ValidationError aborts the loop at its position
instead. -/
theorem C3_fieldlist_no_fail_fast (inner : FieldSpec) (req : Bool) (items : List PyVal)
    (hne : items ≠ [])
    (h : ∀ x ∈ items, CleansToLeafOrOk inner x) :
    fieldClean (.fieldList inner req Option.none Option.none) (.list items) =
      (if (items.enum.filterMap (leafAt inner)) = []
       then .ok (.list (items.filterMap (cleanOk inner)))
       else .error (.validation (.batch (items.enum.filterMap (leafAt inner))))) := by
  have hc : ∀ x ∈ items, fieldCleanGo (2 * fieldSizeF inner + 4) inner x =
      some (fieldClean inner x) := by
    intro x hx
    have hner : fieldClean inner x ≠ .error .attributeError := by
      rcases h x hx with ⟨v, hv⟩ | ⟨l, hl⟩
      · simp [hv]
      · simp [hl]
    exact fieldCleanGo_mono (by omega) (fieldClean_go inner x hner)
  have hloop := fieldListLoop_spec inner (fieldCleanGo (2 * fieldSizeF inner + 4) inner)
    items 0 [] [] hc h
  have henum : items.enum = List.enumFrom 0 items := rfl
  have ht : pyTruthy (.list items) = true := by
    cases items with
    | nil => exact absurd rfl hne
    | cons y rest => rfl
  unfold fieldClean
  have hfuel : 2 * fieldSizeF (FieldSpec.fieldList inner req Option.none Option.none) + 2 =
      ((2 * fieldSizeF inner + 4) + 1) + 1 := by simp [fieldSizeF]; ring
  rw [hfuel, fieldCleanGo, fieldToPythonGo]
  rw [if_neg (by simp [ht])]
  simp only [lengthViolatesMin, lengthViolatesMax, if_false]
  rw [henum, hloop]
  simp only [List.nil_append]
  by_cases herrs : (List.enumFrom 0 items).filterMap (leafAt inner) = []
  · simp only [herrs, List.isEmpty_nil, if_true]
    have hoks : items.filterMap (cleanOk inner) ≠ [] := by
      cases items with
      | nil => exact absurd rfl hne
      | cons y rest =>
        rcases h y (by simp) with ⟨v, hv⟩ | ⟨l, hl⟩
        · simp [cleanOk, hv]
        · exfalso
          have : leafAt inner (0, y) = some ⟨l.message, l.code, some [.idx 0]⟩ := by
            simp [leafAt, hl]
          rw [List.enumFrom, List.filterMap_cons, this] at herrs
          simp at herrs
    cases hoks2 : items.filterMap (cleanOk inner) with
    | nil => exact absurd hoks2 hoks
    | cons a as =>
      simp [validateField, runValidatorsField, isEmptyValue, FieldSpec.requiredOf]
  · have : ((List.enumFrom 0 items).filterMap (leafAt inner)).isEmpty = false := by
      simpa [List.isEmpty_iff] using herrs
    simp only [this, if_false, herrs]
    simp [herrs]

/-- C3 witness: a FieldList of 3 integers where 2 elements are
non-numeric strings raises a batch of exactly 2 `invalid` errors, one per
offending index. -/
theorem C3_witness :
    ([PyVal.int 1, .str "x", .str "y"] ≠ ([] : List PyVal)) ∧
    (∀ x ∈ [PyVal.int 1, .str "x", .str "y"], CleansToLeafOrOk (.intF true) x) ∧
    fieldClean (.fieldList (.intF true) true Option.none Option.none)
        (.list [.int 1, .str "x", .str "y"]) =
      .error (.validation (.batch
        [⟨"Enter a whole number.", some "invalid", some [.idx 1]⟩,
         ⟨"Enter a whole number.", some "invalid", some [.idx 2]⟩])) := by
  have hyp : ∀ x ∈ [PyVal.int 1, .str "x", .str "y"], CleansToLeafOrOk (.intF true) x := by
    intro x hx
    fin_cases hx
    · exact Or.inl ⟨.int 1, rfl⟩
    · exact Or.inr ⟨intInvalidLeaf, rfl⟩
    · exact Or.inr ⟨intInvalidLeaf, rfl⟩
  refine ⟨by simp, hyp, ?_⟩
  rw [C3_fieldlist_no_fail_fast (.intF true) true [.int 1, .str "x", .str "y"] (by simp) hyp]
  rfl

/-- C3 counterexample: the element loop IS fail-fast when an element
fails with a multi-error (batch) ValidationError.  A CharField rejects a
string holding a null character through a validator, so its error is a
list — `ValidationError(errors)` from `run_validators` — and
`DetailValidationError` reads `error.message`, which a batch does not
have: the AttributeError aborts `FieldList.to_python` at the first such
element.  A FieldList of CharFields over two offending strings therefore
raises that AttributeError instead of the claimed batch of two
index-tagged errors; the second element contributes nothing. -/
theorem C3_counterexample :
    fieldClean (.charF true) (.str "a\x00b") =
      .error (.validation (.batch [nullCharLeaf])) ∧
    fieldClean (.charF true) (.str "c\x00d") =
      .error (.validation (.batch [nullCharLeaf])) ∧
    fieldClean (.fieldList (.charF true) true Option.none Option.none)
        (.list [.str "a\x00b", .str "c\x00d"]) =
      .error .attributeError :=
  ⟨rfl, rfl, rfl⟩
/-- Keys after `d[k] = v`: the old keys plus `k`. -/
theorem alSet_keys {α : Type} (l : List (String × α)) (k : String) (v : α) (k' : String) :
    k' ∈ alKeys (alSet l k v) ↔ k' ∈ alKeys l ∨ k' = k := by
  induction l with
  | nil => simp [alSet, alKeys]
  | cons p rest ih =>
    obtain ⟨pk, pv⟩ := p
    by_cases hp : pk = k
    · subst hp
      simp [alSet, alKeys]
      tauto
    · simp [alSet, hp, alKeys] at ih ⊢
      tauto

/-- Keys after `del d[k]` are among the old keys. -/
theorem alDel_keys {α : Type} (l : List (String × α)) (k : String) (k' : String) :
    k' ∈ alKeys (alDel l k) ↔ k' ∈ alKeys l ∧ k' ≠ k := by
  simp only [alDel, alKeys, List.mem_map, List.mem_filter]
  constructor
  · rintro ⟨kv, ⟨hm, hne⟩, rfl⟩
    exact ⟨⟨kv, hm, rfl⟩, by simpa using hne⟩
  · rintro ⟨⟨kv, hm, rfl⟩, hne⟩
    exact ⟨kv, ⟨hm, by simpa using hne⟩, rfl⟩

/-- `k in d` is key membership. -/
theorem alHas_iff {α : Type} (l : List (String × α)) (k : String) :
    alHas l k = true ↔ k ∈ alKeys l := by
  cases hf : List.find? (fun kv => kv.1 = k) l with
  | none =>
    have hn := List.find?_eq_none.mp hf
    simp only [alHas, alGet, hf, Option.map_none', Option.isSome_none,
      Bool.false_eq_true, false_iff, alKeys, List.mem_map]
    rintro ⟨kv, hm, hk⟩
    exact hn kv hm (by simp [hk])
  | some kv =>
    have hm := List.mem_of_find?_eq_some hf
    have hp := List.find?_some hf
    simp only [decide_eq_true_eq] at hp
    simp only [alHas, alGet, hf, Option.map_some', Option.isSome_some, true_iff,
      alKeys, List.mem_map]
    exact ⟨kv, hm, hp⟩

/-- A successful `d.get(k)` means `k` is a key. -/
theorem alGet_mem {α : Type} (l : List (String × α)) (k : String) (v : α)
    (h : alGet l k = some v) : (k, v) ∈ l := by
  cases hf : List.find? (fun kv => kv.1 = k) l with
  | none => simp [alGet, hf] at h
  | some kv =>
    simp only [alGet, hf, Option.map_some', Option.some.injEq] at h
    have hm := List.mem_of_find?_eq_some hf
    have hp := List.find?_some hf
    simp only [decide_eq_true_eq] at hp
    obtain ⟨k1, v1⟩ := kv
    simp only at h hp
    subst hp
    subst h
    exact hm

/-- The item loop of `add_error` only ever adds error keys from the
items, never grows `cleaned_data`, and preserves key disjointness. -/
theorem addErrorItems_spec (names : List String) :
    ∀ (items : List (String × List Leaf)) (st st' : FormState) (e : Option PyExc),
      addErrorItems names items st = (st', e) →
      (∀ k, k ∈ alKeys st'.errors → k ∈ alKeys st.errors ∨ k ∈ items.map Prod.fst) ∧
      (∀ k, k ∈ alKeys st'.cleaned → k ∈ alKeys st.cleaned) ∧
      (StateDisjoint st → StateDisjoint st') := by
  intro items
  induction items with
  | nil =>
    intro st st' e h
    simp only [addErrorItems, Prod.mk.injEq] at h
    obtain ⟨rfl, rfl⟩ := h
    exact ⟨fun k hk => Or.inl hk, fun k hk => hk, fun hd => hd⟩
  | cons p rest ih =>
    intro st st' e h
    obtain ⟨f, el⟩ := p
    rw [addErrorItems] at h
    cases hg : alGet st.errors f with
    | none =>
      rw [hg] at h
      by_cases hbad : f ≠ nonFieldErrors ∧ ¬ names.contains f
      · rw [if_pos hbad] at h
        simp only [Prod.mk.injEq] at h
        obtain ⟨rfl, rfl⟩ := h
        exact ⟨fun k hk => Or.inl hk, fun k hk => hk, fun hd => hd⟩
      · rw [if_neg hbad] at h
        simp only at h
        set st1 : FormState := { st with errors := alSet st.errors f el } with hst1
        set st2 : FormState :=
          if alHas st1.cleaned f then { st1 with cleaned := alDel st1.cleaned f } else st1 with hst2
        obtain ⟨he, hc, hd⟩ := ih st2 st' e h
        have hkeys2e : ∀ k, k ∈ alKeys st2.errors → k ∈ alKeys st.errors ∨ k = f := by
          intro k hk
          have : k ∈ alKeys st1.errors := by
            by_cases hh : alHas st1.cleaned f <;> simp [hst2, hh] at hk <;> exact hk
          simpa [hst1, alSet_keys] using this
        have hkeys2c : ∀ k, k ∈ alKeys st2.cleaned → k ∈ alKeys st.cleaned := by
          intro k hk
          by_cases hh : alHas st1.cleaned f
          · simp [hst2, hh, alDel_keys] at hk
            exact hk.1
          · simp [hst2, hh, hst1] at hk
            exact hk
        refine ⟨?_, ?_, ?_⟩
        · intro k hk
          rcases he k hk with hk2 | hk2
          · rcases hkeys2e k hk2 with h3 | h3
            · exact Or.inl h3
            · exact Or.inr (by simp [h3])
          · exact Or.inr (by simp [hk2])
        · intro k hk
          exact hkeys2c k (hc k hk)
        · intro hdisj
          refine hd ?_
          intro k hk2
          rcases hkeys2e k hk2 with h3 | h3
          · intro hkc
            exact hdisj k h3 (hkeys2c k hkc)
          · subst h3
            intro hkc
            by_cases hh : alHas st1.cleaned k
            · simp [hst2, hh, alDel_keys] at hkc
            · rw [hst2, if_neg hh] at hkc
              exact hh (by rw [alHas_iff]; exact hkc)
    | some cur =>
      rw [hg] at h
      simp only at h
      set st1 : FormState := { st with errors := alSet st.errors f (cur ++ el) } with hst1
      set st2 : FormState :=
        if alHas st1.cleaned f then { st1 with cleaned := alDel st1.cleaned f } else st1 with hst2
      obtain ⟨he, hc, hd⟩ := ih st2 st' e h
      have hkeys2e : ∀ k, k ∈ alKeys st2.errors → k ∈ alKeys st.errors ∨ k = f := by
        intro k hk
        have : k ∈ alKeys st1.errors := by
          by_cases hh : alHas st1.cleaned f <;> simp [hst2, hh] at hk <;> exact hk
        simpa [hst1, alSet_keys] using this
      have hkeys2c : ∀ k, k ∈ alKeys st2.cleaned → k ∈ alKeys st.cleaned := by
        intro k hk
        by_cases hh : alHas st1.cleaned f
        · simp [hst2, hh, alDel_keys] at hk
          exact hk.1
        · simp [hst2, hh, hst1] at hk
          exact hk
      refine ⟨?_, ?_, ?_⟩
      · intro k hk
        rcases he k hk with hk2 | hk2
        · rcases hkeys2e k hk2 with h3 | h3
          · exact Or.inl h3
          · exact Or.inr (by simp [h3])
        · exact Or.inr (by simp [hk2])
      · intro k hk
        exact hkeys2c k (hc k hk)
      · intro hdisj
        refine hd ?_
        intro k hk2
        rcases hkeys2e k hk2 with h3 | h3
        · intro hkc
          exact hdisj k h3 (hkeys2c k hkc)
        · subst h3
          intro hkc
          by_cases hh : alHas st1.cleaned k
          · simp [hst2, hh, alDel_keys] at hkc
          · rw [hst2, if_neg hh] at hkc
            exact hh (by rw [alHas_iff]; exact hkc)

/-- `add_error` adds error keys only at the targeted field (or
`__all__`), never grows `cleaned_data`, and preserves key disjointness —
except through its RequestValidationError branch, which needs the target
key to be absent from `cleaned_data`. -/
theorem add_error_spec (names : List String) (st : FormState) (field : Option String)
    (exc : PyExc) (st' : FormState) (e : Option PyExc)
    (hnoedict : field = Option.none → ∀ es, exc ≠ .validation (.edict es))
    (h : add_error names st field exc = (st', e)) :
    (∀ k, k ∈ alKeys st'.errors →
       k ∈ alKeys st.errors ∨ k = field.getD "__all__" ∨ k = "__all__") ∧
    (∀ k, k ∈ alKeys st'.cleaned → k ∈ alKeys st.cleaned) ∧
    (StateDisjoint st →
      (∀ ls, exc = .requestValidation ls → (field.getD "__all__") ∉ alKeys st.cleaned) →
      StateDisjoint st') := by
  cases exc with
  | requestValidation ls =>
    simp only [add_error, Prod.mk.injEq] at h
    obtain ⟨rfl, rfl⟩ := h
    refine ⟨?_, fun k hk => hk, ?_⟩
    · intro k hk
      simp only [alSet_keys] at hk
      rcases hk with hk | hk
      · exact Or.inl hk
      · exact Or.inr (Or.inl hk)
    · intro hdisj hreq k hk hc
      simp only [alSet_keys] at hk
      rcases hk with hk | hk
      · exact hdisj k hk hc
      · subst hk
        exact hreq ls rfl hc
  | validation ve =>
    cases ve with
    | edict es =>
      cases field with
      | none => exact absurd rfl (hnoedict rfl es)
      | some s =>
        simp only [add_error, Prod.mk.injEq] at h
        obtain ⟨rfl, rfl⟩ := h
        exact ⟨fun k hk => Or.inl hk, fun k hk => hk, fun hd _ => hd⟩
    | leaf l =>
      have hkey : ∀ key : String,
          addErrorItems names [(key, errorList (.leaf l))] st = (st', e) →
          (key = field.getD "__all__" ∨ key = "__all__") →
          (∀ k, k ∈ alKeys st'.errors →
            k ∈ alKeys st.errors ∨ k = field.getD "__all__" ∨ k = "__all__") ∧
          (∀ k, k ∈ alKeys st'.cleaned → k ∈ alKeys st.cleaned) ∧
          (StateDisjoint st →
            (∀ ls, (PyExc.validation (.leaf l)) = .requestValidation ls →
              (field.getD "__all__") ∉ alKeys st.cleaned) → StateDisjoint st') := by
        intro key hh hkor
        obtain ⟨he, hc, hd⟩ := addErrorItems_spec names [(key, errorList (.leaf l))] st st' e hh
        refine ⟨?_, hc, fun hdisj _ => hd hdisj⟩
        intro k hk
        rcases he k hk with hk | hk
        · exact Or.inl hk
        · simp at hk
          subst hk
          exact Or.inr hkor
      cases field with
      | none =>
        simp only [add_error] at h
        exact hkey "__all__" (by simpa [nonFieldErrors] using h) (Or.inl rfl)
      | some s =>
        by_cases hs : s = ""
        · subst hs
          simp only [add_error] at h
          exact hkey "__all__" (by simpa [nonFieldErrors] using h) (Or.inr rfl)
        · simp only [add_error, hs] at h
          exact hkey s (by simpa [nonFieldErrors] using h) (Or.inl rfl)
    | batch ls =>
      have hkey : ∀ key : String,
          addErrorItems names [(key, errorList (.batch ls))] st = (st', e) →
          (key = field.getD "__all__" ∨ key = "__all__") →
          (∀ k, k ∈ alKeys st'.errors →
            k ∈ alKeys st.errors ∨ k = field.getD "__all__" ∨ k = "__all__") ∧
          (∀ k, k ∈ alKeys st'.cleaned → k ∈ alKeys st.cleaned) ∧
          (StateDisjoint st →
            (∀ ls2, (PyExc.validation (.batch ls)) = .requestValidation ls2 →
              (field.getD "__all__") ∉ alKeys st.cleaned) → StateDisjoint st') := by
        intro key hh hkor
        obtain ⟨he, hc, hd⟩ := addErrorItems_spec names [(key, errorList (.batch ls))] st st' e hh
        refine ⟨?_, hc, fun hdisj _ => hd hdisj⟩
        intro k hk
        rcases he k hk with hk | hk
        · exact Or.inl hk
        · simp at hk
          subst hk
          exact Or.inr hkor
      cases field with
      | none =>
        simp only [add_error] at h
        exact hkey "__all__" (by simpa [nonFieldErrors] using h) (Or.inl rfl)
      | some s =>
        by_cases hs : s = ""
        · subst hs
          simp only [add_error] at h
          exact hkey "__all__" (by simpa [nonFieldErrors] using h) (Or.inr rfl)
        · simp only [add_error, hs] at h
          exact hkey s (by simpa [nonFieldErrors] using h) (Or.inl rfl)
  | attributeError =>
    simp only [add_error, Prod.mk.injEq] at h
    obtain ⟨rfl, rfl⟩ := h
    exact ⟨fun k hk => Or.inl hk, fun k hk => hk, fun hd _ => hd⟩
  | typeError =>
    simp only [add_error, Prod.mk.injEq] at h
    obtain ⟨rfl, rfl⟩ := h
    exact ⟨fun k hk => Or.inl hk, fun k hk => hk, fun hd _ => hd⟩
  | valueError =>
    simp only [add_error, Prod.mk.injEq] at h
    obtain ⟨rfl, rfl⟩ := h
    exact ⟨fun k hk => Or.inl hk, fun k hk => hk, fun hd _ => hd⟩
  | apiFormException msg =>
    simp only [add_error, Prod.mk.injEq] at h
    obtain ⟨rfl, rfl⟩ := h
    exact ⟨fun k hk => Or.inl hk, fun k hk => hk, fun hd _ => hd⟩

/-- One step of the per-field loop: whatever the head field does, the
state it hands on (or aborts with) only gained error keys at that field
name or `__all__`, only gained that field name in `cleaned_data`, and
kept error/cleaned keys disjoint when the name was fresh and no
`clean_<name>` hook raises RequestValidationError. -/
theorem fieldsLoopGo_cons_inv
    (fuel : Nat) (names : List String) (hooks : List (String × HookSpec))
    (dirty : List String) (data : PyVal) (key : String) (fspec : FieldSpec)
    (rest : List (String × FieldSpec)) (st : FormState) (r : FormState × Option PyExc)
    (h : fieldsLoopGo (fuel+1) names hooks dirty data ((key, fspec) :: rest) st = some r) :
    ∃ st',
      (∀ k, k ∈ alKeys st'.errors → k ∈ alKeys st.errors ∨ k = key ∨ k = "__all__") ∧
      (∀ k, k ∈ alKeys st'.cleaned → k ∈ alKeys st.cleaned ∨ k = key) ∧
      (StateDisjoint st → key ∉ alKeys st.errors → key ∉ alKeys st.cleaned →
        (∀ ls, (key, HookSpec.raiseRequestValidation ls) ∉ hooks) → StateDisjoint st') ∧
      (fieldsLoopGo fuel names hooks dirty data rest st' = some r ∨
        ∃ e2, r = (st', some e2)) := by
  have wrap : ∀ (stb st'' : FormState) (excb : PyExc) (exc'' : Option PyExc),
      add_error names stb (some key) excb = (st'', exc'') →
      (∀ es, excb ≠ .validation (.edict es) ∨ True) →
      (∀ k, k ∈ alKeys stb.errors → k ∈ alKeys st.errors) →
      (∀ k, k ∈ alKeys stb.cleaned → k ∈ alKeys st.cleaned ∨ k = key) →
      (StateDisjoint st → key ∉ alKeys st.errors → key ∉ alKeys st.cleaned →
        (∀ ls, (key, HookSpec.raiseRequestValidation ls) ∉ hooks) → StateDisjoint stb) →
      (∀ ls, excb = PyExc.requestValidation ls →
        StateDisjoint st → key ∉ alKeys st.errors → key ∉ alKeys st.cleaned →
        (∀ ls2, (key, HookSpec.raiseRequestValidation ls2) ∉ hooks) →
        key ∉ alKeys stb.cleaned) →
      (exc'' = Option.none → fieldsLoopGo fuel names hooks dirty data rest st'' = some r) →
      (∀ e2, exc'' = some e2 → r = (st'', some e2)) →
      ∃ st',
        (∀ k, k ∈ alKeys st'.errors → k ∈ alKeys st.errors ∨ k = key ∨ k = "__all__") ∧
        (∀ k, k ∈ alKeys st'.cleaned → k ∈ alKeys st.cleaned ∨ k = key) ∧
        (StateDisjoint st → key ∉ alKeys st.errors → key ∉ alKeys st.cleaned →
          (∀ ls, (key, HookSpec.raiseRequestValidation ls) ∉ hooks) → StateDisjoint st') ∧
        (fieldsLoopGo fuel names hooks dirty data rest st' = some r ∨
          ∃ e2, r = (st', some e2)) := by
    intro stb st'' excb exc'' hae _ hbe hbc hbd hbreq hcont1 hcont2
    obtain ⟨hse, hsc, hsd⟩ := add_error_spec names stb (some key) excb st'' exc''
      (fun hf => absurd hf (by simp)) hae
    refine ⟨st'', ?_, ?_, ?_, ?_⟩
    · intro k hk
      rcases hse k hk with hk2 | hk2 | hk2
      · exact Or.inl (hbe k hk2)
      · simp at hk2; exact Or.inr (Or.inl hk2)
      · exact Or.inr (Or.inr hk2)
    · intro k hk
      exact hbc k (hsc k hk)
    · intro hd1 hd2 hd3 hd4
      refine hsd (hbd hd1 hd2 hd3 hd4) ?_
      intro ls hls
      simp only [Option.getD_some]
      exact hbreq ls hls hd1 hd2 hd3 hd4
    · cases hx : exc'' with
      | none => exact Or.inl (hcont1 hx)
      | some e2 => exact Or.inr ⟨e2, hcont2 e2 hx⟩
  rw [fieldsLoopGo] at h
  cases hd : dataGet data key with
  | error e =>
    simp only [hd] at h
    cases e with
    | validation ve =>
      rcases hae : add_error names st (some key) (.validation ve) with ⟨st'', exc''⟩
      simp only [hae] at h
      cases hx : exc'' with
      | none =>
        rw [hx] at h
        exact wrap st st'' (.validation ve) Option.none (hx ▸ hae) (fun _ => Or.inr trivial)
          (fun k hk => hk) (fun k hk => Or.inl hk) (fun hd1 _ _ _ => hd1)
          (fun ls hls => by simp at hls) (fun _ => h) (fun e2 he2 => by simp at he2)
      | some e2 =>
        rw [hx] at h
        simp only [Option.some.injEq] at h
        exact wrap st st'' (.validation ve) (some e2) (hx ▸ hae) (fun _ => Or.inr trivial)
          (fun k hk => hk) (fun k hk => Or.inl hk) (fun hd1 _ _ _ => hd1)
          (fun ls hls => by simp at hls) (fun hc => by simp at hc)
          (fun e3 he3 => by rw [← h]; simp at he3; rw [he3])
    | requestValidation ls =>
      rcases hae : add_error names st (some key) (.requestValidation ls) with ⟨st'', exc''⟩
      simp only [hae] at h
      cases hx : exc'' with
      | none =>
        rw [hx] at h
        exact wrap st st'' (.requestValidation ls) Option.none (hx ▸ hae) (fun _ => Or.inr trivial)
          (fun k hk => hk) (fun k hk => Or.inl hk) (fun hd1 _ _ _ => hd1)
          (fun ls2 _ _ _ hd3 _ => hd3) (fun _ => h) (fun e2 he2 => by simp at he2)
      | some e2 =>
        rw [hx] at h
        simp only [Option.some.injEq] at h
        exact wrap st st'' (.requestValidation ls) (some e2) (hx ▸ hae) (fun _ => Or.inr trivial)
          (fun k hk => hk) (fun k hk => Or.inl hk) (fun hd1 _ _ _ => hd1)
          (fun ls2 _ _ _ hd3 _ => hd3) (fun hc => by simp at hc)
          (fun e3 he3 => by rw [← h]; simp at he3; rw [he3])
    | attributeError =>
      rcases hae : add_error names st (some key) (.validation (.leaf invalidValueLeaf)) with ⟨st'', exc''⟩
      simp only [hae] at h
      cases hx : exc'' with
      | none =>
        rw [hx] at h
        exact wrap st st'' (.validation (.leaf invalidValueLeaf)) Option.none (hx ▸ hae)
          (fun _ => Or.inr trivial)
          (fun k hk => hk) (fun k hk => Or.inl hk) (fun hd1 _ _ _ => hd1)
          (fun ls hls => by simp at hls) (fun _ => h) (fun e2 he2 => by simp at he2)
      | some e2 =>
        rw [hx] at h
        simp only [Option.some.injEq] at h
        exact wrap st st'' (.validation (.leaf invalidValueLeaf)) (some e2) (hx ▸ hae)
          (fun _ => Or.inr trivial)
          (fun k hk => hk) (fun k hk => Or.inl hk) (fun hd1 _ _ _ => hd1)
          (fun ls hls => by simp at hls) (fun hc => by simp at hc)
          (fun e3 he3 => by rw [← h]; simp at he3; rw [he3])
    | typeError =>
      rcases hae : add_error names st (some key) (.validation (.leaf invalidValueLeaf)) with ⟨st'', exc''⟩
      simp only [hae] at h
      cases hx : exc'' with
      | none =>
        rw [hx] at h
        exact wrap st st'' (.validation (.leaf invalidValueLeaf)) Option.none (hx ▸ hae)
          (fun _ => Or.inr trivial)
          (fun k hk => hk) (fun k hk => Or.inl hk) (fun hd1 _ _ _ => hd1)
          (fun ls hls => by simp at hls) (fun _ => h) (fun e2 he2 => by simp at he2)
      | some e2 =>
        rw [hx] at h
        simp only [Option.some.injEq] at h
        exact wrap st st'' (.validation (.leaf invalidValueLeaf)) (some e2) (hx ▸ hae)
          (fun _ => Or.inr trivial)
          (fun k hk => hk) (fun k hk => Or.inl hk) (fun hd1 _ _ _ => hd1)
          (fun ls hls => by simp at hls) (fun hc => by simp at hc)
          (fun e3 he3 => by rw [← h]; simp at he3; rw [he3])
    | valueError =>
      rcases hae : add_error names st (some key) (.validation (.leaf invalidValueLeaf)) with ⟨st'', exc''⟩
      simp only [hae] at h
      cases hx : exc'' with
      | none =>
        rw [hx] at h
        exact wrap st st'' (.validation (.leaf invalidValueLeaf)) Option.none (hx ▸ hae)
          (fun _ => Or.inr trivial)
          (fun k hk => hk) (fun k hk => Or.inl hk) (fun hd1 _ _ _ => hd1)
          (fun ls hls => by simp at hls) (fun _ => h) (fun e2 he2 => by simp at he2)
      | some e2 =>
        rw [hx] at h
        simp only [Option.some.injEq] at h
        exact wrap st st'' (.validation (.leaf invalidValueLeaf)) (some e2) (hx ▸ hae)
          (fun _ => Or.inr trivial)
          (fun k hk => hk) (fun k hk => Or.inl hk) (fun hd1 _ _ _ => hd1)
          (fun ls hls => by simp at hls) (fun hc => by simp at hc)
          (fun e3 he3 => by rw [← h]; simp at he3; rw [he3])
    | apiFormException msg =>
      simp only [Option.some.injEq] at h
      exact ⟨st, fun k hk => Or.inl hk, fun k hk => Or.inl hk, fun hd1 _ _ _ => hd1,
        Or.inr ⟨.apiFormException msg, h.symm⟩⟩
  | ok raw =>
    simp only [hd] at h
    cases hc : fieldCleanGo fuel fspec raw with
    | none => rw [hc] at h; simp at h
    | some rv =>
      simp only [hc] at h
      cases rv with
      | error e =>
        cases e with
        | validation ve =>
          rcases hae : add_error names st (some key) (.validation ve) with ⟨st'', exc''⟩
          simp only [hae] at h
          cases hx : exc'' with
          | none =>
            rw [hx] at h
            exact wrap st st'' (.validation ve) Option.none (hx ▸ hae) (fun _ => Or.inr trivial)
              (fun k hk => hk) (fun k hk => Or.inl hk) (fun hd1 _ _ _ => hd1)
              (fun ls hls => by simp at hls) (fun _ => h) (fun e2 he2 => by simp at he2)
          | some e2 =>
            rw [hx] at h
            simp only [Option.some.injEq] at h
            exact wrap st st'' (.validation ve) (some e2) (hx ▸ hae) (fun _ => Or.inr trivial)
              (fun k hk => hk) (fun k hk => Or.inl hk) (fun hd1 _ _ _ => hd1)
              (fun ls hls => by simp at hls) (fun hc2 => by simp at hc2)
              (fun e3 he3 => by rw [← h]; simp at he3; rw [he3])
        | requestValidation ls =>
          rcases hae : add_error names st (some key) (.requestValidation ls) with ⟨st'', exc''⟩
          simp only [hae] at h
          cases hx : exc'' with
          | none =>
            rw [hx] at h
            exact wrap st st'' (.requestValidation ls) Option.none (hx ▸ hae)
              (fun _ => Or.inr trivial)
              (fun k hk => hk) (fun k hk => Or.inl hk) (fun hd1 _ _ _ => hd1)
              (fun ls2 _ _ _ hd3 _ => hd3) (fun _ => h) (fun e2 he2 => by simp at he2)
          | some e2 =>
            rw [hx] at h
            simp only [Option.some.injEq] at h
            exact wrap st st'' (.requestValidation ls) (some e2) (hx ▸ hae)
              (fun _ => Or.inr trivial)
              (fun k hk => hk) (fun k hk => Or.inl hk) (fun hd1 _ _ _ => hd1)
              (fun ls2 _ _ _ hd3 _ => hd3) (fun hc2 => by simp at hc2)
              (fun e3 he3 => by rw [← h]; simp at he3; rw [he3])
        | attributeError =>
          rcases hae : add_error names st (some key) (.validation (.leaf invalidValueLeaf)) with ⟨st'', exc''⟩
          simp only [hae] at h
          cases hx : exc'' with
          | none =>
            rw [hx] at h
            exact wrap st st'' (.validation (.leaf invalidValueLeaf)) Option.none (hx ▸ hae)
              (fun _ => Or.inr trivial)
              (fun k hk => hk) (fun k hk => Or.inl hk) (fun hd1 _ _ _ => hd1)
              (fun ls hls => by simp at hls) (fun _ => h) (fun e2 he2 => by simp at he2)
          | some e2 =>
            rw [hx] at h
            simp only [Option.some.injEq] at h
            exact wrap st st'' (.validation (.leaf invalidValueLeaf)) (some e2) (hx ▸ hae)
              (fun _ => Or.inr trivial)
              (fun k hk => hk) (fun k hk => Or.inl hk) (fun hd1 _ _ _ => hd1)
              (fun ls hls => by simp at hls) (fun hc2 => by simp at hc2)
              (fun e3 he3 => by rw [← h]; simp at he3; rw [he3])
        | typeError =>
          rcases hae : add_error names st (some key) (.validation (.leaf invalidValueLeaf)) with ⟨st'', exc''⟩
          simp only [hae] at h
          cases hx : exc'' with
          | none =>
            rw [hx] at h
            exact wrap st st'' (.validation (.leaf invalidValueLeaf)) Option.none (hx ▸ hae)
              (fun _ => Or.inr trivial)
              (fun k hk => hk) (fun k hk => Or.inl hk) (fun hd1 _ _ _ => hd1)
              (fun ls hls => by simp at hls) (fun _ => h) (fun e2 he2 => by simp at he2)
          | some e2 =>
            rw [hx] at h
            simp only [Option.some.injEq] at h
            exact wrap st st'' (.validation (.leaf invalidValueLeaf)) (some e2) (hx ▸ hae)
              (fun _ => Or.inr trivial)
              (fun k hk => hk) (fun k hk => Or.inl hk) (fun hd1 _ _ _ => hd1)
              (fun ls hls => by simp at hls) (fun hc2 => by simp at hc2)
              (fun e3 he3 => by rw [← h]; simp at he3; rw [he3])
        | valueError =>
          rcases hae : add_error names st (some key) (.validation (.leaf invalidValueLeaf)) with ⟨st'', exc''⟩
          simp only [hae] at h
          cases hx : exc'' with
          | none =>
            rw [hx] at h
            exact wrap st st'' (.validation (.leaf invalidValueLeaf)) Option.none (hx ▸ hae)
              (fun _ => Or.inr trivial)
              (fun k hk => hk) (fun k hk => Or.inl hk) (fun hd1 _ _ _ => hd1)
              (fun ls hls => by simp at hls) (fun _ => h) (fun e2 he2 => by simp at he2)
          | some e2 =>
            rw [hx] at h
            simp only [Option.some.injEq] at h
            exact wrap st st'' (.validation (.leaf invalidValueLeaf)) (some e2) (hx ▸ hae)
              (fun _ => Or.inr trivial)
              (fun k hk => hk) (fun k hk => Or.inl hk) (fun hd1 _ _ _ => hd1)
              (fun ls hls => by simp at hls) (fun hc2 => by simp at hc2)
              (fun e3 he3 => by rw [← h]; simp at he3; rw [he3])
        | apiFormException msg =>
          simp only [Option.some.injEq] at h
          exact ⟨st, fun k hk => Or.inl hk, fun k hk => Or.inl hk, fun hd1 _ _ _ => hd1,
            Or.inr ⟨.apiFormException msg, h.symm⟩⟩
      | ok v =>
        by_cases hdy : dirty.contains key
        · simp only [hdy, if_true] at h
          cases hh : alGet hooks key with
          | none =>
            simp only [hh] at h
            refine ⟨{ st with cleaned := alSet st.cleaned key v }, ?_, ?_, ?_, Or.inl h⟩
            · intro k hk; exact Or.inl hk
            · intro k hk
              simp only [alSet_keys] at hk
              exact hk
            · intro hd1 hd2 _ _
              intro k hk hkc
              simp only [alSet_keys] at hkc
              rcases hkc with hkc | hkc
              · exact hd1 k hk hkc
              · subst hkc; exact hd2 hk
          | some h0 =>
            simp only [hh] at h
            cases hrh : runHook h0 with
            | ok hv =>
              simp only [hrh] at h
              refine ⟨{ st with cleaned := alSet (alSet st.cleaned key v) key hv }, ?_, ?_, ?_,
                Or.inl h⟩
              · intro k hk; exact Or.inl hk
              · intro k hk
                simp only [alSet_keys] at hk
                rcases hk with (hk | hk) | hk
                · exact Or.inl hk
                · exact Or.inr hk
                · exact Or.inr hk
              · intro hd1 hd2 _ _
                intro k hk hkc
                simp only [alSet_keys] at hkc
                rcases hkc with (hkc | hkc) | hkc
                · exact hd1 k hk hkc
                · subst hkc; exact hd2 hk
                · subst hkc; exact hd2 hk
            | error e =>
              simp only [hrh] at h
              have hst1e : ∀ k, k ∈ alKeys ({ st with cleaned := alSet st.cleaned key v } : FormState).errors →
                  k ∈ alKeys st.errors := fun k hk => hk
              have hst1c : ∀ k, k ∈ alKeys ({ st with cleaned := alSet st.cleaned key v } : FormState).cleaned →
                  k ∈ alKeys st.cleaned ∨ k = key := by
                intro k hk
                simpa [alSet_keys] using hk
              have hst1d : StateDisjoint st → key ∉ alKeys st.errors → key ∉ alKeys st.cleaned →
                  (∀ ls, (key, HookSpec.raiseRequestValidation ls) ∉ hooks) →
                  StateDisjoint { st with cleaned := alSet st.cleaned key v } := by
                intro hd1 hd2 _ _ k hk hkc
                simp only [alSet_keys] at hkc
                rcases hkc with hkc | hkc
                · exact hd1 k hk hkc
                · subst hkc; exact hd2 hk
              cases e with
              | validation ve =>
                rcases hae : add_error names { st with cleaned := alSet st.cleaned key v }
                    (some key) (.validation ve) with ⟨st'', exc''⟩
                simp only [hae] at h
                cases hx : exc'' with
                | none =>
                  rw [hx] at h
                  exact wrap _ st'' (.validation ve) Option.none (hx ▸ hae)
                    (fun _ => Or.inr trivial) hst1e hst1c hst1d
                    (fun ls hls => by simp at hls) (fun _ => h) (fun e2 he2 => by simp at he2)
                | some e2 =>
                  rw [hx] at h
                  simp only [Option.some.injEq] at h
                  exact wrap _ st'' (.validation ve) (some e2) (hx ▸ hae)
                    (fun _ => Or.inr trivial) hst1e hst1c hst1d
                    (fun ls hls => by simp at hls) (fun hc2 => by simp at hc2)
                    (fun e3 he3 => by rw [← h]; simp at he3; rw [he3])
              | requestValidation ls =>
                have hmem : (key, HookSpec.raiseRequestValidation ls) ∈ hooks := by
                  cases h0 with
                  | raiseRequestValidation ls0 =>
                    simp only [runHook, Except.error.injEq, PyExc.requestValidation.injEq] at hrh
                    subst hrh
                    exact alGet_mem hooks key _ hh
                  | returnValue v2 => simp [runHook] at hrh
                  | raiseValidation m c => simp [runHook] at hrh
                rcases hae : add_error names { st with cleaned := alSet st.cleaned key v }
                    (some key) (.requestValidation ls) with ⟨st'', exc''⟩
                simp only [hae] at h
                cases hx : exc'' with
                | none =>
                  rw [hx] at h
                  exact wrap _ st'' (.requestValidation ls) Option.none (hx ▸ hae)
                    (fun _ => Or.inr trivial) hst1e hst1c hst1d
                    (fun ls2 _ _ _ _ hnh => absurd hmem (hnh ls))
                    (fun _ => h) (fun e2 he2 => by simp at he2)
                | some e2 =>
                  rw [hx] at h
                  simp only [Option.some.injEq] at h
                  exact wrap _ st'' (.requestValidation ls) (some e2) (hx ▸ hae)
                    (fun _ => Or.inr trivial) hst1e hst1c hst1d
                    (fun ls2 _ _ _ _ hnh => absurd hmem (hnh ls))
                    (fun hc2 => by simp at hc2)
                    (fun e3 he3 => by rw [← h]; simp at he3; rw [he3])
              | attributeError => cases h0 <;> simp [runHook] at hrh
              | typeError => cases h0 <;> simp [runHook] at hrh
              | valueError => cases h0 <;> simp [runHook] at hrh
              | apiFormException msg => cases h0 <;> simp [runHook] at hrh
        · simp only [hdy, Bool.false_eq_true, if_false] at h
          exact ⟨st, fun k hk => Or.inl hk, fun k hk => Or.inl hk, fun hd1 _ _ _ => hd1,
            Or.inl h⟩

/-- `d.get(k)` of an absent key is `None`. -/
theorem alGet_eq_none {α : Type} (l : List (String × α)) (k : String)
    (h : k ∉ alKeys l) : alGet l k = Option.none := by
  cases hf : List.find? (fun kv => kv.1 = k) l with
  | none => simp [alGet, hf]
  | some kv =>
    exfalso
    have hm := List.mem_of_find?_eq_some hf
    have hp := List.find?_some hf
    simp only [decide_eq_true_eq] at hp
    exact h (List.mem_map.mpr ⟨kv, hm, hp⟩)

/-- A name that is not dirty, reads `None` from the payload and cleans
successfully never enters `_errors` or `cleaned_data` during the
per-field loop. -/
theorem fieldsLoopGo_skips (names : List String) (hooks : List (String × HookSpec))
    (dirty : List String) (data : PyVal) (name : String)
    (hname : name ≠ "__all__") (hdirty : name ∉ dirty)
    (hdata : dataGet data name = Except.ok PyVal.none) :
    ∀ (fields : List (String × FieldSpec)),
      (∀ fs, (name, fs) ∈ fields → ∃ v, fieldClean fs PyVal.none = .ok v) →
      ∀ (fuel : Nat) (st : FormState) (r : FormState × Option PyExc),
      fieldsLoopGo fuel names hooks dirty data fields st = some r →
      name ∉ alKeys st.errors → name ∉ alKeys st.cleaned →
      name ∉ alKeys r.1.errors ∧ name ∉ alKeys r.1.cleaned := by
  intro fields
  induction fields with
  | nil =>
    intro _ fuel st r h he hc
    cases fuel with
    | zero => simp [fieldsLoopGo] at h
    | succ m =>
      rw [fieldsLoopGo] at h
      simp only [Option.some.injEq] at h
      rw [← h]
      exact ⟨he, hc⟩
  | cons kf rest ih =>
    intro hclean fuel st r h he hc
    obtain ⟨key, fspec⟩ := kf
    cases fuel with
    | zero => simp [fieldsLoopGo] at h
    | succ m =>
      by_cases hk : key = name
      · subst hk
        rw [fieldsLoopGo] at h
        simp only [hdata] at h
        cases hcg : fieldCleanGo m fspec PyVal.none with
        | none => simp only [hcg] at h; exact absurd h (by simp)
        | some rv =>
          obtain ⟨v, hv⟩ := hclean fspec (by simp)
          have hcan : fieldCleanGo (2 * fieldSizeF fspec + 2) fspec PyVal.none =
              some (fieldClean fspec PyVal.none) :=
            fieldClean_go fspec PyVal.none (by simp [hv])
          have hrv : rv = .ok v := by
            have h2 := fieldCleanGo_agree hcg hcan
            rw [h2, hv]
          subst hrv
          simp only [hcg] at h
          have hdy : dirty.contains key = false := by simpa using hdirty
          simp only [hdy, Bool.false_eq_true, if_false] at h
          exact ih (fun fs hfs => hclean fs (List.mem_cons_of_mem _ hfs)) m st r h he hc
      · obtain ⟨st', hbe, hbc, _, hcont⟩ :=
          fieldsLoopGo_cons_inv m names hooks dirty data key fspec rest st r h
        have he' : name ∉ alKeys st'.errors := by
          intro hx
          rcases hbe name hx with h1 | h1 | h1
          · exact he h1
          · exact hk h1.symm
          · exact hname h1
        have hc' : name ∉ alKeys st'.cleaned := by
          intro hx
          rcases hbc name hx with h1 | h1
          · exact hc h1
          · exact hk h1.symm
        rcases hcont with hrec | ⟨e2, hre⟩
        · exact ih (fun fs hfs => hclean fs (List.mem_cons_of_mem _ hfs)) m st' r hrec he' hc'
        · rw [hre]
          exact ⟨he', hc'⟩

/-- C4 amended: an optional field absent from the input dict is indeed
never dirty, so its cleaned value is never stored and its name appears
in neither `_errors` nor `cleaned_data` — PROVIDED cleaning it on `None`
succeeds; `field.clean(None)` is still invoked on it (the claimed
\"skipped entirely\" is refuted by the counterexample). -/
theorem C4_optional_absent_amended (form : FormSpec) (kvs : List (String × PyVal))
    (name : String) (hname : name ≠ "__all__")
    (habsent : name ∉ kvs.map Prod.fst)
    (hclean : ∀ fs, (name, fs) ∈ form.fieldsOf → ∃ v, fieldClean fs PyVal.none = .ok v) :
    name ∉ alKeys (fullCleanState form (.dict kvs)).1.errors ∧
    name ∉ alKeys (fullCleanState form (.dict kvs)).1.cleaned := by
  unfold fullCleanState
  cases hg : fullCleanStateGo (2 * formSizeF form + 3) form (.dict kvs) with
  | none => simp [alKeys]
  | some p =>
    simp only [Option.getD_some]
    have hfuel : 2 * formSizeF form + 3 = (2 * formSizeF form + 2) + 1 := by ring
    rw [hfuel, fullCleanStateGo] at hg
    cases hp : fieldPhaseGo (2 * formSizeF form + 2) form (.dict kvs) with
    | none => rw [hp] at hg; simp at hg
    | some q =>
      rw [hp] at hg
      obtain ⟨stq, excq⟩ := q
      cases form with
      | mk fields hooks ch =>
        have hfuel2 : 2 * formSizeF (FormSpec.mk fields hooks ch) + 2
            = (2 * formSizeF (FormSpec.mk fields hooks ch) + 1) + 1 := by ring
        rw [hfuel2, fieldPhaseGo] at hp
        have hdirty : name ∉ dirtyKeys (.dict kvs) (fields.map (·.1)) := by
          intro hx
          simp only [dirtyKeys, List.mem_filter] at hx
          exact habsent hx.1
        have hdata : dataGet (normData (.dict kvs)) name = Except.ok PyVal.none := by
          simp only [normData, dataGet]
          rw [alGet_eq_none kvs name habsent]
          rfl
        have hloop := fieldsLoopGo_skips (fields.map (·.1)) hooks
          (dirtyKeys (.dict kvs) (fields.map (·.1))) (normData (.dict kvs)) name hname
          hdirty hdata fields hclean (2 * formSizeF (FormSpec.mk fields hooks ch) + 1)
          ⟨[], []⟩ (stq, excq) hp (by simp [alKeys]) (by simp [alKeys])
        cases excq with
        | some e =>
          simp only [Option.some.injEq] at hg
          rw [← hg]
          exact hloop
        | none =>
          cases ch with
          | default =>
            simp only [runCleanHook, FormSpec.cleanHookOf, Option.some.injEq] at hg
            rw [← hg]
            exact hloop
          | returnNone =>
            simp only [runCleanHook, FormSpec.cleanHookOf, Option.some.injEq] at hg
            rw [← hg]
            exact hloop
          | raiseValidation msg code =>
            simp only [runCleanHook, FormSpec.cleanHookOf] at hg
            rcases hae : add_error ((FormSpec.mk fields hooks (.raiseValidation msg code)).fieldsOf.map (·.1))
                stq Option.none (.validation (.leaf ⟨msg, code, Option.none⟩)) with ⟨st'', exc''⟩
            rw [hae] at hg
            simp only [Option.some.injEq] at hg
            obtain ⟨hse, hsc, _⟩ := add_error_spec _ stq Option.none
              (.validation (.leaf ⟨msg, code, Option.none⟩)) st'' exc''
              (fun _ es => by simp) hae
            rw [← hg]
            constructor
            · intro hx
              rcases hse name hx with h1 | h1 | h1
              · exact hloop.1 h1
              · exact hname (by simpa using h1)
              · exact hname h1
            · intro hx
              exact hloop.2 (hsc name hx)

/-- C4 witness: on a concrete form, the absent optional CharField `nick`
ends up in neither the error keys nor the cleaned keys. -/
theorem C4_witness :
    "nick" ∉ alKeys (fullCleanState c4wForm (.dict [("b", .int 3)])).1.errors ∧
    "nick" ∉ alKeys (fullCleanState c4wForm (.dict [("b", .int 3)])).1.cleaned :=
  C4_optional_absent_amended c4wForm [("b", .int 3)] "nick" (by decide) (by decide)
    (by
      intro fs h
      simp only [c4wForm, FormSpec.fieldsOf, List.mem_cons, List.not_mem_nil, or_false,
        Prod.mk.injEq] at h
      rcases h with ⟨-, hf⟩ | ⟨hn, -⟩
      · exact ⟨.str "", by rw [hf]; rfl⟩
      · exact absurd hn (by decide))

/-- The per-field loop keeps error keys and cleaned keys disjoint when
the declared names are distinct, none is `__all__`, and no hook raises
RequestValidationError. -/
theorem fieldsLoopGo_disjoint (names : List String) (hooks : List (String × HookSpec))
    (dirty : List String) (data : PyVal)
    (hhooks : ∀ key ls, (key, HookSpec.raiseRequestValidation ls) ∉ hooks) :
    ∀ (fields : List (String × FieldSpec)) (fuel : Nat) (st : FormState)
      (r : FormState × Option PyExc),
      fieldsLoopGo fuel names hooks dirty data fields st = some r →
      StateDisjoint st →
      (∀ key, key ∈ fields.map Prod.fst →
        key ∉ alKeys st.errors ∧ key ∉ alKeys st.cleaned) →
      (fields.map Prod.fst).Nodup →
      "__all__" ∉ fields.map Prod.fst →
      StateDisjoint r.1 := by
  intro fields
  induction fields with
  | nil =>
    intro fuel st r h hd _ _ _
    cases fuel with
    | zero => simp [fieldsLoopGo] at h
    | succ m =>
      rw [fieldsLoopGo] at h
      simp only [Option.some.injEq] at h
      rw [← h]
      exact hd
  | cons kf rest ih =>
    intro fuel st r h hd hfresh hnodup hall
    obtain ⟨key, fspec⟩ := kf
    simp only [List.map_cons, List.nodup_cons, List.mem_cons] at hnodup hall hfresh
    cases fuel with
    | zero => simp [fieldsLoopGo] at h
    | succ m =>
      obtain ⟨st', hbe, hbc, hbd, hcont⟩ :=
        fieldsLoopGo_cons_inv m names hooks dirty data key fspec rest st r h
      have hkey := hfresh key (Or.inl rfl)
      have hd' : StateDisjoint st' :=
        hbd hd hkey.1 hkey.2 (fun ls => hhooks key ls)
      rcases hcont with hrec | ⟨e2, hre⟩
      · refine ih m st' r hrec hd' ?_ hnodup.2 (fun hx => hall (Or.inr hx))
        intro k hk
        have hkne : k ≠ key := fun hkk => hnodup.1 (hkk ▸ hk)
        have hknall : k ≠ "__all__" := fun hkk => hall (Or.inr (hkk ▸ hk))
        constructor
        · intro hx
          rcases hbe k hx with h1 | h1 | h1
          · exact (hfresh k (Or.inr hk)).1 h1
          · exact hkne h1
          · exact hknall h1
        · intro hx
          rcases hbc k hx with h1 | h1
          · exact (hfresh k (Or.inr hk)).2 h1
          · exact hkne h1
      · rw [hre]
        exact hd'

/-- C9 amended: after `full_clean`, no field name is both an error key
and a cleaned_data key — PROVIDED no `clean_<name>` hook raises
RequestValidationError (whose `add_error` branch skips the
cleaned_data deletion, refuting the unconditional claim — see the
counterexample), the declared field names are distinct, and no field is
named `__all__`. -/
theorem C9_errors_cleaned_disjoint_amended (form : FormSpec) (data : PyVal)
    (hnodup : (form.fieldsOf.map Prod.fst).Nodup)
    (hall : "__all__" ∉ form.fieldsOf.map Prod.fst)
    (hhooks : ∀ key ls, (key, HookSpec.raiseRequestValidation ls) ∉ form.hooksOf) :
    StateDisjoint (fullCleanState form data).1 := by
  unfold fullCleanState
  cases hg : fullCleanStateGo (2 * formSizeF form + 3) form data with
  | none =>
    intro k hk
    simp [alKeys] at hk
  | some p =>
    simp only [Option.getD_some]
    have hfuel : 2 * formSizeF form + 3 = (2 * formSizeF form + 2) + 1 := by ring
    rw [hfuel, fullCleanStateGo] at hg
    cases hp : fieldPhaseGo (2 * formSizeF form + 2) form data with
    | none => rw [hp] at hg; simp at hg
    | some q =>
      rw [hp] at hg
      obtain ⟨stq, excq⟩ := q
      cases form with
      | mk fields hooks ch =>
        have hfuel2 : 2 * formSizeF (FormSpec.mk fields hooks ch) + 2
            = (2 * formSizeF (FormSpec.mk fields hooks ch) + 1) + 1 := by ring
        rw [hfuel2, fieldPhaseGo] at hp
        have hdq : StateDisjoint stq :=
          fieldsLoopGo_disjoint (fields.map (·.1)) hooks
            (dirtyKeys data (fields.map (·.1))) (normData data) hhooks fields
            (2 * formSizeF (FormSpec.mk fields hooks ch) + 1) ⟨[], []⟩ (stq, excq) hp
            (fun k hk => by simp [alKeys] at hk)
            (fun key _ => ⟨by simp [alKeys], by simp [alKeys]⟩)
            hnodup hall
        cases excq with
        | some e =>
          simp only [Option.some.injEq] at hg
          rw [← hg]
          exact hdq
        | none =>
          cases ch with
          | default =>
            simp only [runCleanHook, FormSpec.cleanHookOf, Option.some.injEq] at hg
            rw [← hg]
            exact fun k hk => hdq k hk
          | returnNone =>
            simp only [runCleanHook, FormSpec.cleanHookOf, Option.some.injEq] at hg
            rw [← hg]
            exact hdq
          | raiseValidation msg code =>
            simp only [runCleanHook, FormSpec.cleanHookOf] at hg
            rcases hae : add_error ((FormSpec.mk fields hooks (.raiseValidation msg code)).fieldsOf.map (·.1))
                stq Option.none (.validation (.leaf ⟨msg, code, Option.none⟩)) with ⟨st'', exc''⟩
            rw [hae] at hg
            simp only [Option.some.injEq] at hg
            obtain ⟨-, -, hsd⟩ := add_error_spec _ stq Option.none
              (.validation (.leaf ⟨msg, code, Option.none⟩)) st'' exc''
              (fun _ es => by simp) hae
            rw [← hg]
            exact hsd hdq (fun ls hls => by simp at hls)

/-- C9 witness: a concrete hook-free form ends with disjoint error and
cleaned keys. -/
theorem C9_witness :
    StateDisjoint (fullCleanState (FormSpec.mk [("x", FieldSpec.anyF false)] [] .default)
      (.dict [("x", .int 5)])).1 :=
  C9_errors_cleaned_disjoint_amended (FormSpec.mk [("x", FieldSpec.anyF false)] [] .default)
    (.dict [("x", .int 5)]) (by decide) (by decide) (fun key ls h => by simp [FormSpec.hooksOf] at h)
